import Mathlib

/-!
Verification of the scalabel labeling-session core (`app/js/sat.js`).

The JavaScript heap of `Sat` / `SatItem` / `SatLabel` objects is embedded as a
pure state: label objects live in an arena keyed by their integer `id` (the
source maintains the invariant `labelIdMap[l.id] === l`, so an object
reference is interchangeable with its id), and every other place that holds a
label object reference holds the label's id instead.  A JavaScript `undefined`
obtained from a failed `labelIdMap[...]` lookup is `none`; consequently a
slot that can hold either a label object or `undefined` has type `Option Nat`.
A thrown `TypeError` (reading a property of `undefined`/`null`) is modelled by
`Except.error ()`.  Statements and loops translate to explicit recursion;
JavaScript `%` on integers is `Int.tmod` (remainder with the sign of the
dividend).  DOM, canvas, network and timestamp effects are outside the model.
-/

/-- Embedding of a `SatLabel` object (plus the box geometry fields `x,y,w,h`
used by the concrete image label, which `SatImage._mouseup` manipulates;
`null` and resolution failure (`undefined`) for the `parent` pointer are both
`none`). -/
structure SatLabelE where
  id : Nat
  categoryPath : Option String
  parent : Option Nat
  children : List Nat
  numChildren : Int
  valid : Bool
  previousLabelId : Option Nat
  nextLabelId : Option Nat
  keyframe : Option Bool
  x : Int
  y : Int
  w : Int
  h : Int
  deriving DecidableEq, Repr

/-- The label arena: `labelIdMap` as an association list from id to label
state.  Insertion conses at the front (later bindings shadow earlier ones,
matching JavaScript property assignment). -/
abbrev LMap := List (Nat × SatLabelE)

/-- Lookup in the arena: `labelIdMap[k]`, `none` standing for `undefined`. -/
def lookupL (m : LMap) (k : Nat) : Option SatLabelE :=
  (m.find? (fun p => p.1 == k)).map (·.2)

/-- Pointwise update of the binding(s) of key `k` (JavaScript field mutation
on the object `labelIdMap[k]`; shadowed stale bindings are updated too, which
is invisible to `lookupL`). -/
def updateL : LMap → Nat → (SatLabelE → SatLabelE) → LMap
  | [], _, _ => []
  | a :: m, k, f => (if a.1 = k then (a.1, f a.2) else a) :: updateL m k f

/-- Embedding of an audit-log event (the `Date.now()` timestamp and the
`position` payload come from the environment and are abstracted away). -/
structure EventE where
  action : String
  itemIndex : Int
  labelId : Int
  deriving DecidableEq, Repr

/-- Embedding of a `SatItem` / `SatImage` object.  `labels` holds label
object references, each `some id` or `none` for an `undefined` entry (which
`SatItem.fromJson` can push).  The interaction-state fields of `SatImage`
(`state`, `selectedLabel`, `currHandle`, `resizeID`, `movePos`,
`moveClickPos`, `active`) live on the item as in the source.  The `index`
field mirrors the source's `this.index`; navigation (`previousItem` /
`nextItem`) is modelled positionally, relying on the source invariant that
`newItem` assigns `index = items.length` so index equals position. -/
structure SatItemE where
  index : Nat
  url : String
  labels : List (Option Nat)
  selectedLabel : Option Nat
  currHandle : Option Int
  active : Bool
  state : String
  resizeID : Option Nat
  movePos : Option (Int × Int)
  moveClickPos : Option (Int × Int)
  deriving DecidableEq, Repr

/-- A fresh item as built by the `SatItem` constructor through
`Sat.newItem(url)` (`index` is the length of `items` at creation time). -/
def newItemE (index : Nat) (url : String) : SatItemE :=
  { index := index, url := url, labels := [], selectedLabel := none,
    currHandle := none, active := false, state := "free", resizeID := none,
    movePos := none, moveClickPos := none }

/-- Embedding of the `Sat` session object.  `labels` is the session-wide
creation-ordered list of label ids; `labelIdMap` is the arena; `currentItem`
is the position of the active item (`none` for the initial `null`).
`categories`, `projectName` and `ipInfo` are opaque payloads. -/
structure SatE where
  items : List SatItemE
  labels : List Nat
  labelIdMap : LMap
  lastLabelId : Int
  currentItem : Option Nat
  events : List EventE
  categories : Option String
  projectName : Option String
  startTime : Int
  ipInfo : Option String
  deriving DecidableEq, Repr

/-- Write `this.valid = false` on the label `k`. -/
def setValidFalse (m : LMap) (k : Nat) : LMap :=
  updateL m k (fun l => { l with valid := false })

/-- Write `this.children[i].parent = null` on the label `k`. -/
def setParentNone (m : LMap) (k : Nat) : LMap :=
  updateL m k (fun l => { l with parent := none })

/-- Write `this.parent.numChildren -= 1` on the label `k`. -/
def decNumChildren (m : LMap) (k : Nat) : LMap :=
  updateL m k (fun l => { l with numChildren := l.numChildren - 1 })

/-- The `children` list of the label bound to `k` (`[]` when unbound). -/
def childrenOf (m : LMap) (k : Nat) : List Nat :=
  ((lookupL m k).map (·.children)).getD []

/-- Embedding of `SatLabel.prototype.delete`, the recursive cascade:
set `valid = false`; if the label has a parent, decrement the parent's
`numChildren` and, exactly when the decremented count equals zero,
recursively delete the parent; finally, for each child in order, set the
child's `parent` to `null` and recursively delete the child.  The recursion
is indexed by fuel (the source recursion is unbounded); fuel `0` performs
nothing, and the theorems quantify over sufficient fuel. -/
def deleteLabel : Nat → LMap → Nat → LMap
  | 0, m, _ => m
  | f+1, m, k =>
    let m1 := setValidFalse m k
    let m2 :=
      match (lookupL m1 k).bind (·.parent) with
      | none => m1
      | some p =>
        let mp := decNumChildren m1 p
        if (lookupL mp p).map (·.numChildren) = some 0 then deleteLabel f mp p
        else mp
    (childrenOf m2 k).foldl (fun acc c => deleteLabel f (setParentNone acc c) c) m2

/-- All ids reachable from `k` through `children` edges within depth `f`
(the parent/child subtree rooted at `k`, cut off at the fuel bound). -/
def subtreeIds : Nat → LMap → Nat → List Nat
  | 0, _, k => [k]
  | f+1, m, k => k :: (childrenOf m k).flatMap (subtreeIds f m)

/-- Evolution relation satisfied by every step of the delete cascade: the
binding structure (`children`, and which ids are bound) is untouched,
invalidity is never undone, and a cleared `parent` pointer is never reset. -/
def MapEvolves (m m2 : LMap) : Prop :=
  (∀ x, (lookupL m2 x).map (·.children) = (lookupL m x).map (·.children)) ∧
  (∀ x, (lookupL m x).map (·.valid) = some false →
    (lookupL m2 x).map (·.valid) = some false) ∧
  (∀ x, (lookupL m x).map (·.parent) = some none →
    (lookupL m2 x).map (·.parent) = some none)

/-- The intermediate arena reached by one call of `delete` after the
`valid = false` write and the parent branch, before the children loop. -/
def deleteMid (f : Nat) (m : LMap) (k : Nat) : LMap :=
  let m1 := setValidFalse m k
  match (lookupL m1 k).bind (·.parent) with
  | none => m1
  | some p =>
    let mp := decNumChildren m1 p
    if (lookupL mp p).map (·.numChildren) = some 0 then deleteLabel f mp p
    else mp

/-- Field initialization performed by the `SatLabel` constructor
(`categoryPath = null`, `parent = null`, `children = []`, `numChildren = 0`,
`valid = true`; the geometry fields of the concrete box label default to
zero). -/
def mkLabelE (id : Nat) : SatLabelE :=
  { id := id, categoryPath := none, parent := none, children := [],
    numChildren := 0, valid := true, previousLabelId := none,
    nextLabelId := none, keyframe := none, x := 0, y := 0, w := 0, h := 0 }

/-- Concrete two-label store for the C5 witness: label 0 is a parent whose
only child is label 1. -/
def c5parent : SatLabelE := { mkLabelE 0 with children := [1], numChildren := 1 }

/-- Concrete child label for the C5 witness. -/
def c5child : SatLabelE := { mkLabelE 1 with parent := some 0 }

/-- Concrete arena for the C5 witness. -/
def c5map : LMap := [(0, c5parent), (1, c5child)]

/-- Resolution of an optional label-id reference through `labelIdMap`:
`labelIdMap[r]` is the label object when the id is bound and `undefined`
otherwise; `labelIdMap[undefined]` is `undefined`. -/
def resolveRef (m : LMap) (r : Option Nat) : Option Nat :=
  r.bind (fun p => if (lookupL m p).isSome then some p else none)

/-- One advance of the chain walk, the source line
`if (currentLabel) currentLabel = labelIdMap[currentLabel.g]` for a link
field `g` (`previousLabelId` or `nextLabelId`). -/
def chainAdvance (m : LMap) (g : SatLabelE → Option Nat)
    (cl : Option Nat) : Option Nat :=
  cl.bind (fun c => resolveRef m ((lookupL m c).bind g))

/-- The chain value after `d` advances. -/
def chainAt (m : LMap) (g : SatLabelE → Option Nat) (cl : Option Nat) :
    Nat → Option Nat
  | 0 => cl
  | d+1 => chainAdvance m g (chainAt m g cl d)

/-- The ids among an item's label entries (skipping `undefined` entries). -/
def entryIds (ls : List (Option Nat)) : List Nat :=
  ls.filterMap (fun e => e)

/-- The inner removal loop of `deleteLabelById` over one visited item's
label list: positions are scanned in order and `labels[j].id` faults on an
`undefined` entry; a matching entry is spliced out and, as in the source,
the element shifted into position `j` is skipped by the `j++` following the
splice.  Returns the remaining list and whether an entry was removed. -/
def spliceScan (t : Nat) : List (Option Nat) →
    Except Unit (List (Option Nat) × Bool)
  | [] => .ok ([], false)
  | none :: _ => .error ()
  | some x :: rest =>
    if x = t then
      match rest with
      | [] => .ok ([], true)
      | y :: ys => do
        let r ← spliceScan t ys
        .ok (y :: r.1, true)
    else do
      let r ← spliceScan t rest
      .ok (some x :: r.1, r.2)

/-- Processing of one visited item in the chain-deletion walk.  The source
compares `currentItem.labels[j].id === currentLabel.id` at every position,
so an `undefined` chain value faults as soon as the visited item has any
label entry; when an entry is removed, the item's selection is cleared if it
pointed at the removed label. -/
def walkItemStep (cl : Option Nat) (it : SatItemE) : Except Unit SatItemE :=
  match cl with
  | none => if it.labels.isEmpty then .ok it else .error ()
  | some t => do
    let r ← spliceScan t it.labels
    if r.2 ∧ it.selectedLabel = some t then
      .ok { it with labels := r.1, selectedLabel := none, currHandle := none }
    else
      .ok { it with labels := r.1 }

/-- The backward half of the chain walk (`while (back && currentItem)`):
visit the items at positions `idx, idx-1, ..., 0`, removing the current
chain label from each and advancing the chain through `previousLabelId`. -/
def backWalk (m : LMap) (idx : Nat) (cl : Option Nat)
    (items : List SatItemE) : Except Unit (List SatItemE) :=
  match items.get? idx with
  | none => .ok items
  | some it => do
    let it2 ← walkItemStep cl it
    let items2 := items.set idx it2
    let cl2 := chainAdvance m (·.previousLabelId) cl
    match idx with
    | 0 => .ok items2
    | q+1 => backWalk m q cl2 items2

/-- The forward half of the chain walk (`while (currentItem)` over
`nextItem()`): visit the items at positions `idx, idx+1, ...` until the end
of the item list, advancing through `nextLabelId`; the fuel counts the
remaining items. -/
def forwardWalkAux (m : LMap) : Nat → Nat → Option Nat → List SatItemE →
    Except Unit (List SatItemE)
  | 0, _, _, items => .ok items
  | fuel+1, idx, cl, items =>
    match items.get? idx with
    | none => .ok items
    | some it => do
      let it2 ← walkItemStep cl it
      forwardWalkAux m fuel (idx+1) (chainAdvance m (·.nextLabelId) cl)
        (items.set idx it2)

/-- Entry point of the forward walk starting at position `idx`. -/
def forwardWalk (m : LMap) (idx : Nat) (cl : Option Nat)
    (items : List SatItemE) : Except Unit (List SatItemE) :=
  forwardWalkAux m (items.length - idx) idx cl items

/-- The outer search loop of `deleteLabelById`: the position of the first
entry with `labels[i].id === labelId`, faulting on an `undefined` entry
reached before a match. -/
def findIdS (t : Nat) : List (Option Nat) → Except Unit (Option Nat)
  | [] => .ok none
  | none :: _ => .error ()
  | some x :: rest =>
    if x = t then .ok (some 0)
    else do
      let r ← findIdS t rest
      .ok (r.map (· + 1))

/-- Embedding of `SatItem.prototype.deleteLabelById` invoked on the item at
position `p`.  When the label is found: with `back` the walk first removes
the `previousLabelId` chain from the items before `p`; the `nextLabelId`
chain is then removed from the items after `p` unconditionally; finally the
found entry is spliced from this item's list and this item's selection is
cleared if it pointed at the deleted label.  The label objects themselves —
`labelIdMap`, `labels`, validity, parent/children — are never touched. -/
def deleteLabelById (sat : SatE) (p : Nat) (labelId : Nat)
    (back : Bool) : Except Unit SatE :=
  match sat.items.get? p with
  | none => .ok sat
  | some self => do
    let found ← findIdS labelId self.labels
    match found with
    | none => .ok sat
    | some i => do
      let items1 ←
        if back then
          match p with
          | 0 => Except.ok sat.items
          | q+1 =>
              backWalk sat.labelIdMap q
                (resolveRef sat.labelIdMap
                  ((lookupL sat.labelIdMap labelId).bind (·.previousLabelId)))
                sat.items
        else Except.ok sat.items
      let items2 ← forwardWalk sat.labelIdMap (p+1)
        (resolveRef sat.labelIdMap
          ((lookupL sat.labelIdMap labelId).bind (·.nextLabelId)))
        items1
      match items2.get? p with
      | none => .ok sat
      | some self2 =>
        let self3 :=
          if self2.selectedLabel = some labelId then
            { self2 with
              labels := self2.labels.eraseIdx i,
              selectedLabel := none,
              currHandle := none }
          else { self2 with labels := self2.labels.eraseIdx i }
        .ok { sat with items := items2.set p self3 }

deriving instance DecidableEq for Except

/-- Concrete session for C8: two items; the label on item 1 carries a
`previousLabelId` (7) that is bound to no label, and item 0 has a label
entry, so the backward walk dereferences `undefined`. -/
def c8sat : SatE :=
  { items :=
      [{ newItemE 0 "u0" with labels := [some 0] },
       { newItemE 1 "u1" with labels := [some 1] }],
    labels := [0, 1],
    labelIdMap := [(0, mkLabelE 0), (1, { mkLabelE 1 with previousLabelId := some 7 })],
    lastLabelId := 1, currentItem := some 1, events := [],
    categories := none, projectName := none, startTime := 0, ipInfo := none }

/-- Concrete session for C1: one item whose list holds a parent label (id 0)
and its child (id 1). -/
def c1sat : SatE :=
  { items := [{ newItemE 0 "u0" with labels := [some 0, some 1] }],
    labels := [0, 1],
    labelIdMap := [(0, c5parent), (1, c5child)],
    lastLabelId := 1, currentItem := some 0, events := [],
    categories := none, projectName := none, startTime := 0, ipInfo := none }

/-- The net effect of the walk on one visited item when its label list is
well-formed: a `none` chain value (reaching an item with an empty list)
leaves the item alone; a chain label `t` is filtered out of the list, and
the selection is cleared exactly when something was removed and the
selection pointed at `t`. -/
def procItem (cl : Option Nat) (it : SatItemE) : SatItemE :=
  match cl with
  | none => it
  | some t =>
    if some t ∈ it.labels ∧ it.selectedLabel = some t then
      { it with
        labels := it.labels.filter (fun e => e ≠ some t),
        selectedLabel := none,
        currHandle := none }
    else { it with labels := it.labels.filter (fun e => e ≠ some t) }

/-- The rewrite of the receiving item performed at the end of
`deleteLabelById`: splice out position `i` and clear the selection when it
pointed at the deleted label. -/
def spliceSelf (self : SatItemE) (labelId i : Nat) : SatItemE :=
  if self.selectedLabel = some labelId then
    { self with
      labels := self.labels.eraseIdx i,
      selectedLabel := none,
      currHandle := none }
  else { self with labels := self.labels.eraseIdx i }

/-- The middle item of the three-item chain session used as C1 witness. -/
def c1witem : SatItemE := { newItemE 1 "u1" with labels := [some 1] }

/-- Three-item session with a tracked chain 0 → 1 → 2 (one label per item)
for the C1 witness. -/
def c1wsat : SatE :=
  { items :=
      [{ newItemE 0 "u0" with labels := [some 0] },
       c1witem,
       { newItemE 2 "u2" with labels := [some 2] }],
    labels := [0, 1, 2],
    labelIdMap :=
      [(0, { mkLabelE 0 with nextLabelId := some 1 }),
       (1, { mkLabelE 1 with
             previousLabelId := some 0,
             nextLabelId := some 2 }),
       (2, { mkLabelE 2 with previousLabelId := some 1 })],
    lastLabelId := 2, currentItem := some 1, events := [],
    categories := none, projectName := none, startTime := 0, ipInfo := none }

/-- Embedding of `Sat.prototype.gotoItem`.  The source wraps with
`index % items.length`, which for JavaScript integers is the truncated
remainder (`Int.tmod`, sign of the dividend).  With an empty item list the
remainder is `NaN` and the subsequent `setActive` on `items[NaN]` throws;
with a negative index the remainder is negative, `items[index]` is
`undefined`, and `setActive(true)` throws — both are `.error ()`.  The
`onload`/`redraw` hooks are external and not modelled; `setActive` is
modelled by its effect on the `active` flag. -/
def gotoItem (sat : SatE) (index : Int) : Except Unit SatE :=
  if sat.items.length = 0 then .error ()
  else
    let idx := index.tmod (sat.items.length : Int)
    match sat.currentItem with
    | none => .error ()
    | some cur =>
      match sat.items.get? cur with
      | none => .error ()
      | some curIt =>
        let items1 := sat.items.set cur { curIt with active := false }
        if idx < 0 then .error ()
        else
          match items1.get? idx.toNat with
          | none => .error ()
          | some tgt =>
            .ok { sat with
              items := items1.set idx.toNat { tgt with active := true },
              currentItem := some idx.toNat }

/-- Concrete three-item session for C6. -/
def c6sat : SatE :=
  { items := [{ newItemE 0 "a" with active := true },
              newItemE 1 "b", newItemE 2 "c"],
    labels := [], labelIdMap := [], lastLabelId := -1,
    currentItem := some 0, events := [], categories := none,
    projectName := none, startTime := 0, ipInfo := none }

/-- Wire JSON shape of a label, as produced by
`SatLabel.prototype.encodeBaseJson` (`-1` encodes an absent
parent/previous/next; an omitted `children` array is identified with
`[]`). -/
structure LabelJson where
  id : Nat
  categoryPath : Option String
  parent : Int
  children : List Nat
  previousLabelId : Int
  nextLabelId : Int
  keyframe : Option Bool
  deriving DecidableEq, Repr

/-- Wire JSON shape of an item, as produced by `SatItem.prototype.toJson`. -/
structure ItemJson where
  url : String
  index : Nat
  labelIds : List Nat
  deriving DecidableEq, Repr

/-- Wire JSON shape of a session document. -/
structure SatJson where
  projectName : Option String
  startTime : Int
  items : List ItemJson
  labels : List LabelJson
  categories : Option String
  events : List EventE
  userAgent : String
  ipInfo : Option String
  deriving DecidableEq, Repr

/-- The `labelIds` loop of `SatItem.prototype.toJson`: for each entry, if
the referenced label object is `valid` push its `id` field.  Reading
`self.labels[i].valid` on an `undefined` (dangling) entry — or on a
reference that does not resolve through the arena — throws a `TypeError`,
modelled as `Except.error ()`. -/
def itemLabelIdsJson (m : LMap) : List (Option Nat) → Except Unit (List Nat)
  | [] => .ok []
  | e :: rest =>
    match e.bind (lookupL m) with
    | none => .error ()
    | some l =>
      match itemLabelIdsJson m rest with
      | .error er => .error er
      | .ok tl => .ok (if l.valid then l.id :: tl else tl)

/-- Embedding of `SatItem.prototype.toJson`, faulting exactly where the
source's loop throws on a dangling entry. -/
def itemToJson (m : LMap) (it : SatItemE) : Except Unit ItemJson :=
  (itemLabelIdsJson m it.labels).map
    (fun ids => { url := it.url, index := it.index, labelIds := ids })

/-- Embedding of `SatLabel.prototype.encodeBaseJson` for a label object
`l` read through the arena `m`.  `parent` is the parent object's id or `-1`
for `null`; `children` is the id list of the valid children, assigned only
when the children array is nonempty; `previousLabelId`/`nextLabelId` start
at `-1` and are overwritten only when the stored field is truthy — a stored
id of `0` is falsy in JavaScript and is therefore not emitted. -/
def encodeBaseJsonLabel (m : LMap) (l : SatLabelE) : LabelJson :=
  { id := l.id,
    categoryPath := l.categoryPath,
    parent := match l.parent with | some pid => (pid : Int) | none => -1,
    children :=
      if l.children.length > 0 then
        l.children.filterMap (fun c =>
          (lookupL m c).bind (fun cl =>
            if cl.valid then some cl.id else none))
      else [],
    previousLabelId :=
      match l.previousLabelId with
      | some v => if v = 0 then -1 else (v : Int)
      | none => -1,
    nextLabelId :=
      match l.nextLabelId with
      | some v => if v = 0 then -1 else (v : Int)
      | none => -1,
    keyframe := l.keyframe }

/-- State-threaded form of `SatLabel.prototype.toJson` (the call performs
only reads, so it returns the session unchanged alongside the JSON). -/
def encodeLabelS (sat : SatE) (l : SatLabelE) : LabelJson × SatE :=
  (encodeBaseJsonLabel sat.labelIdMap l, sat)

/-- State-threaded labels loop of `Sat.prototype.encodeBaseJson`: only
`valid` labels are encoded. -/
def encodeLabelsS (sat : SatE) : List Nat → List LabelJson × SatE
  | [] => ([], sat)
  | id :: rest =>
    match lookupL sat.labelIdMap id with
    | none => encodeLabelsS sat rest
    | some l =>
      if l.valid then
        let p1 := encodeLabelS sat l
        let p2 := encodeLabelsS p1.2 rest
        (p1.1 :: p2.1, p2.2)
      else encodeLabelsS sat rest

/-- State-threaded form of `SatItem.prototype.toJson`.  The call performs
only reads, so the session is returned unchanged even when the loop
throws. -/
def encodeItemS (sat : SatE) (it : SatItemE) : Except Unit ItemJson × SatE :=
  (itemToJson sat.labelIdMap it, sat)

/-- State-threaded items loop of `Sat.prototype.encodeBaseJson`: the first
item whose `toJson` throws aborts the loop, the exception propagating with
the (unchanged) session state. -/
def encodeItemsS (sat : SatE) : List SatItemE → Except Unit (List ItemJson) × SatE
  | [] => (.ok [], sat)
  | it :: rest =>
    let p1 := encodeItemS sat it
    match p1.1 with
    | .error er => (.error er, p1.2)
    | .ok j =>
      let p2 := encodeItemsS p1.2 rest
      (p2.1.map (fun tl => j :: tl), p2.2)

/-- Embedding of `Sat.prototype.encodeBaseJson` (state-threaded).  The
`userAgent` string is an environment read (`navigator.userAgent`) passed as
a parameter; an exception thrown by an item's `toJson` propagates before
the labels loop runs. -/
def encodeBaseJsonS (sat : SatE) (userAgent : String) :
    Except Unit SatJson × SatE :=
  let pi := encodeItemsS sat sat.items
  match pi.1 with
  | .error er => (.error er, pi.2)
  | .ok itemsJ =>
    let pl := encodeLabelsS pi.2 pi.2.labels
    (.ok { projectName := pl.2.projectName,
           startTime := pl.2.startTime,
           items := itemsJ,
           labels := pl.1,
           categories := pl.2.categories,
           events := pl.2.events,
           userAgent := userAgent,
           ipInfo := pl.2.ipInfo }, pl.2)

/-- Concrete store and item for the C3 counterexample: label 0 is attached
to the item but invalid. -/
def c3map : LMap := [(0, { mkLabelE 0 with valid := false })]

/-- The item of the C3 counterexample. -/
def c3item : SatItemE := { newItemE 0 "u" with labels := [some 0] }

/-- Store for the C3 witness: label 0 valid, label 1 invalid. -/
def c3wmap : LMap := [(0, mkLabelE 0), (1, { mkLabelE 1 with valid := false })]

/-- Item for the C3 witness, holding both labels. -/
def c3witem : SatItemE := { newItemE 0 "u" with labels := [some 0, some 1] }

/-- The `labelIds` loop of `SatItem.prototype.fromJson`: push
`labelIdMap[id]` for every listed id, whether or not the id is bound — an
unbound id pushes `undefined` (`none`). -/
def fromJsonLabelRefs (m : LMap) : List Nat → List (Option Nat)
  | [] => []
  | id :: rest =>
    (if (lookupL m id).isSome then some id else none) ::
      fromJsonLabelRefs m rest

/-- Embedding of `SatItem.prototype.fromJson`. -/
def itemFromJson (m : LMap) (it : SatItemE) (ij : ItemJson) : SatItemE :=
  { it with
    url := ij.url,
    index := ij.index,
    labels := it.labels ++ fromJsonLabelRefs m ij.labelIds }

/-- Embedding of `SatImage._getSelected`: the sampled pixel is
`(r, g, b, a)`; when the alpha channel is `0` both the label and the handle
are `null`; otherwise the label is the entry at position `r*256 + g` of the
active item's label list (`undefined`, i.e. `none`, when out of range or
dangling) and the handle is `b - 1`. -/
def getSelected (labels : List (Option Nat))
    (pixel : Nat × Nat × Nat × Nat) : Option Nat × Option Int :=
  if pixel.2.2.2 ≠ 0 then
    ((labels.get? (pixel.1 * 256 + pixel.2.1)).join,
     some ((pixel.2.2.1 : Int) - 1))
  else (none, none)

/-- Modelled from the spec: `encodeId(slotIndex, handleIndex)` packs the
slot index into two channels (`slotIndex = r*256 + g`) and `handleIndex+1`
into the third, with alpha at full opacity.  The drawing side of the hidden
surface lives in the concrete label classes, which are outside this file's
source. -/
def encodeId (slot handle : Nat) : Nat × Nat × Nat × Nat :=
  (slot / 256, slot % 256, handle + 1, 255)

/-- Pass 1 of decoding one label: the `SatLabel` constructor
(`new LabelType(self, id)`) followed by `decodeBaseJsonVariables`, which
sets only scalar fields; `previousLabelId`/`nextLabelId` are copied only
when the JSON value is `> -1`. -/
def decodeLabelVars (lj : LabelJson) : SatLabelE :=
  { mkLabelE lj.id with
    categoryPath := lj.categoryPath,
    keyframe := lj.keyframe,
    previousLabelId :=
      if lj.previousLabelId > -1 then some lj.previousLabelId.toNat
      else none,
    nextLabelId :=
      if lj.nextLabelId > -1 then some lj.nextLabelId.toNat else none }

/-- One step of the first loop of `Sat.decodeBaseJson`: track the highest
id in `lastLabelId`, construct the label, set its scalar fields, and
register it in `labelIdMap` and `labels`. -/
def decodePass1Step (sat : SatE) (lj : LabelJson) : SatE :=
  { sat with
    lastLabelId := max sat.lastLabelId (lj.id : Int),
    labelIdMap := (lj.id, decodeLabelVars lj) :: sat.labelIdMap,
    labels := sat.labels ++ [lj.id] }

/-- The first loop of `Sat.decodeBaseJson` over the JSON label array. -/
def decodePass1 (sat : SatE) (ljs : List LabelJson) : SatE :=
  ljs.foldl decodePass1Step sat

/-- `Sat.newItem(url)` followed by `SatItem.fromJson` for one item JSON. -/
def decodeItemStep (sat : SatE) (ij : ItemJson) : SatE :=
  { sat with
    items := sat.items ++
      [itemFromJson sat.labelIdMap (newItemE sat.items.length ij.url) ij] }

/-- The item loop of `Sat.decodeBaseJson`. -/
def decodeItems (sat : SatE) (ijs : List ItemJson) : SatE :=
  ijs.foldl decodeItemStep sat

/-- `decodeBaseJsonPointers` on the label `lj.id`: when `lj.parent > -1`
set `parent` to `labelIdMap[lj.parent]` (an unbound id resolves to
`undefined`, i.e. `none`), then run the `addChild` loop — each child id
increments `numChildren` and is pushed onto `children`. -/
def decodePass2Step (sat : SatE) (lj : LabelJson) : SatE :=
  { sat with
    labelIdMap := updateL sat.labelIdMap lj.id (fun l =>
      let l1 :=
        if lj.parent > -1 then
          { l with
            parent :=
              if (lookupL sat.labelIdMap lj.parent.toNat).isSome then
                some lj.parent.toNat
              else none }
        else l
      lj.children.foldl (fun l2 cid =>
        { l2 with
          children := l2.children ++ [cid],
          numChildren := l2.numChildren + 1 }) l1) }

/-- Embedding of `Sat.prototype.decodeBaseJson`: first loop constructs the
labels and sets scalars; the item loop builds the items; `currentItem` is
set to `items[0]` (throwing when the item list is empty) and activated;
`categories` is copied; the second loop resolves pointers through the now
fully populated `labelIdMap`; finally the `start labeling` event is
appended.  The `setActive` DOM wiring is modelled by the `active` flag and
the event's timestamp is abstracted away. -/
def decodeBaseJsonModel (sat : SatE) (json : SatJson) : Except Unit SatE :=
  let s1 := decodePass1 sat json.labels
  let s2 := decodeItems s1 json.items
  match s2.items.get? 0 with
  | none => .error ()
  | some it0 =>
    let s3 : SatE :=
      { s2 with
        currentItem := some 0,
        items := s2.items.set 0 { it0 with active := true },
        categories := json.categories }
    let s4 := json.labels.foldl decodePass2Step s3
    .ok { s4 with
      events := s4.events ++
        [{ action := "start labeling",
           itemIndex := (((s4.items.get? 0).map (·.index)).getD 0 : Nat),
           labelId := -1 }] }

/-- The net effect of `decodeBaseJsonPointers` on the label it updates,
given whether the parent id is bound at that moment. -/
def pass2Result (present : Bool) (lj : LabelJson) (l : SatLabelE) :
    SatLabelE :=
  let l1 :=
    if lj.parent > -1 then
      { l with parent := if present then some lj.parent.toNat else none }
    else l
  { l1 with
    children := l1.children ++ lj.children,
    numChildren := l1.numChildren + lj.children.length }

/-- The state produced by a successful `decodeBaseJson` run, given the item
found at position 0 after the item loop. -/
def decodeOkState (sat0 : SatE) (json : SatJson) (it0 : SatItemE) : SatE :=
  let s2 := decodeItems (decodePass1 sat0 json.labels) json.items
  let s3 : SatE :=
    { s2 with
      currentItem := some 0,
      items := s2.items.set 0 { it0 with active := true },
      categories := json.categories }
  let s4 := json.labels.foldl decodePass2Step s3
  { s4 with
    events := s4.events ++
      [{ action := "start labeling",
         itemIndex := (((s4.items.get? 0).map (·.index)).getD 0 : Nat),
         labelId := -1 }] }

/-- A freshly constructed session (the `Sat` constructor: empty lists,
`lastLabelId = -1`, no current item; the `Date.now()` start time is
abstracted to 0). -/
def freshSat : SatE :=
  { items := [], labels := [], labelIdMap := [], lastLabelId := -1,
    currentItem := none, events := [], categories := none,
    projectName := none, startTime := 0, ipInfo := none }

/-- The spec's two-phase example document: label A (id 5) has
`nextLabelId = 6` and refers forward to label B (id 6), which appears later
in the array with `previousLabelId = 5`. -/
def c2json : SatJson :=
  { projectName := none, startTime := 0,
    items := [{ url := "u0", index := 0, labelIds := [5] },
              { url := "u1", index := 1, labelIds := [6] }],
    labels :=
      [{ id := 5, categoryPath := some "car", parent := -1, children := [],
         previousLabelId := -1, nextLabelId := 6, keyframe := none },
       { id := 6, categoryPath := some "car", parent := -1, children := [],
         previousLabelId := 5, nextLabelId := -1, keyframe := none }],
    categories := none, events := [], userAgent := "", ipInfo := none }

/-- Modelled from the spec: `isSmall()` of the concrete box label — true
when the width or the height is under the configured minimum-size threshold
(the concrete label classes live outside this file's source). -/
def isSmall (minSize : Int) (l : SatLabelE) : Bool :=
  l.w < minSize || l.h < minSize

/-- The geometry normalization of `_mouseup`: when the drag inverted the
box, move the origin and negate the width/height so both are
non-negative. -/
def normalizeLabel (l : SatLabelE) : SatLabelE :=
  let l1 := if l.w < 0 then { l with x := l.x + l.w, w := -l.w } else l
  if l1.h < 0 then { l1 with y := l1.y + l1.h, h := -l1.h } else l1

/-- Modelled from the spec: the implementation-defined `INITIAL_HANDLE`
constant of the concrete label type (its value does not matter to any
claim). -/
def initialHandle : Int := 1

/-- The backward selection-propagation walk at the end of `_mouseup`:
every earlier item's selection is overwritten with the current chain value;
the subsequent read of `selectedLabel.INITIAL_HANDLE` throws when the chain
value is `undefined`. -/
def selBackWalk (m : LMap) (idx : Nat) (cl : Option Nat)
    (items : List SatItemE) : Except Unit (List SatItemE) :=
  match items.get? idx with
  | none => .ok items
  | some it =>
    match cl with
    | none => .error ()
    | some t =>
      let items2 := items.set idx
        { it with selectedLabel := some t, currHandle := some initialHandle }
      match idx with
      | 0 => .ok items2
      | q+1 =>
        selBackWalk m q (chainAdvance m (·.previousLabelId) (some t)) items2

/-- The forward selection-propagation walk of `_mouseup` (fuel counts the
remaining items). -/
def selForwardWalkAux (m : LMap) : Nat → Nat → Option Nat →
    List SatItemE → Except Unit (List SatItemE)
  | 0, _, _, items => .ok items
  | fuel+1, idx, cl, items =>
    match items.get? idx with
    | none => .ok items
    | some it =>
      match cl with
      | none => .error ()
      | some t =>
        selForwardWalkAux m fuel (idx+1)
          (chainAdvance m (·.nextLabelId) (some t))
          (items.set idx
            { it with
              selectedLabel := some t,
              currHandle := some initialHandle })

/-- Entry point of the forward selection walk. -/
def selForwardWalk (m : LMap) (idx : Nat) (cl : Option Nat)
    (items : List SatItemE) : Except Unit (List SatItemE) :=
  selForwardWalkAux m (items.length - idx) idx cl items

/-- Embedding of `SatImage.prototype._mouseup` on the item at position `p`.
In a non-`free` state: for a `resize`, normalize the selected label's
geometry and, when the result `isSmall()`, run `delete()` on it and clear
the selection; then return to the `free` state and clear the gesture
bookkeeping.  Afterwards, when a label is still selected and has a parent,
propagate the selection along the previous/next chain to every other item.
The redraw hook is external. -/
def mouseupModel (fuel : Nat) (minSize : Int) (sat : SatE) (p : Nat) :
    Except Unit SatE :=
  match sat.items.get? p with
  | none => .error ()
  | some it =>
    let phase1 : Except Unit (LMap × SatItemE) :=
      if it.state ≠ "free" then
        let core : Except Unit (LMap × Option Nat) :=
          if it.state = "resize" then
            match it.selectedLabel with
            | none => .error ()
            | some s =>
              match lookupL sat.labelIdMap s with
              | none => .error ()
              | some l =>
                let l2 := normalizeLabel l
                let m1 := updateL sat.labelIdMap s (fun _ => l2)
                if isSmall minSize l2 then
                  .ok (deleteLabel fuel m1 s, none)
                else .ok (m1, some s)
          else .ok (sat.labelIdMap, it.selectedLabel)
        core.bind (fun pr => .ok (pr.1,
          { it with
            selectedLabel := pr.2,
            state := "free",
            resizeID := none,
            movePos := none,
            moveClickPos := none }))
      else .ok (sat.labelIdMap, it)
    phase1.bind (fun pr =>
      let sat2 : SatE :=
        { sat with labelIdMap := pr.1, items := sat.items.set p pr.2 }
      match pr.2.selectedLabel with
      | none => .ok sat2
      | some s =>
        if ((lookupL sat2.labelIdMap s).bind (·.parent)).isSome then
          (match p with
           | 0 => Except.ok sat2.items
           | q+1 =>
             selBackWalk sat2.labelIdMap q
               (resolveRef sat2.labelIdMap
                 ((lookupL sat2.labelIdMap s).bind (·.previousLabelId)))
               sat2.items).bind (fun items1 =>
            (selForwardWalk sat2.labelIdMap (p+1)
              (resolveRef sat2.labelIdMap
                ((lookupL sat2.labelIdMap s).bind (·.nextLabelId)))
              items1).bind (fun items2 =>
              .ok { sat2 with items := items2 }))
        else .ok sat2)

/-- The single item of the C7 session: in `resize` state with a selected
degenerate (zero-size) box label. -/
def c7item : SatItemE :=
  { newItemE 0 "u" with
    labels := [some 0],
    state := "resize",
    selectedLabel := some 0,
    resizeID := some 0 }

/-- Concrete session for C7. -/
def c7sat : SatE :=
  { items := [c7item],
    labels := [0],
    labelIdMap := [(0, mkLabelE 0)],
    lastLabelId := 0, currentItem := some 0, events := [],
    categories := none, projectName := none, startTime := 0,
    ipInfo := none }

@[simp]
theorem lookupL_nil (k : Nat) : lookupL [] k = none := rfl

theorem lookupL_cons (a : Nat × SatLabelE) (m : LMap) (k : Nat) :
    lookupL (a :: m) k = if a.1 = k then some a.2 else lookupL m k := by
  by_cases h : a.1 = k
  · simp [lookupL, List.find?, h]
  · have hb : (a.1 == k) = false := by simpa using h
    simp [lookupL, List.find?, hb, h]

@[simp]
theorem lookupL_cons_self (v : SatLabelE) (m : LMap) (k : Nat) :
    lookupL ((k, v) :: m) k = some v := by
  simp [lookupL_cons]

theorem lookupL_cons_ne (a : Nat × SatLabelE) (m : LMap) (k : Nat)
    (h : a.1 ≠ k) : lookupL (a :: m) k = lookupL m k := by
  simp [lookupL_cons, h]

theorem lookupL_updateL (m : LMap) (k : Nat) (f : SatLabelE → SatLabelE)
    (x : Nat) :
    lookupL (updateL m k f) x =
      if x = k then (lookupL m x).map f else lookupL m x := by
  induction m with
  | nil => by_cases h : x = k <;> simp [updateL, h]
  | cons a m ih =>
    by_cases hk : a.1 = k
    · by_cases hx : x = k
      · subst hx
        simp [updateL, lookupL_cons, hk, ih]
      · have hax : a.1 ≠ x := by rw [hk]; exact fun h => hx h.symm
        have hkx : k ≠ x := fun h => hx h.symm
        simp [updateL, lookupL_cons, hk, hax, ih, hx, hkx]
    · by_cases hx : a.1 = x
      · have hxk : x ≠ k := by rw [← hx]; exact fun h => hk h
        simp [updateL, lookupL_cons, hk, hx, hxk]
      · simp [updateL, lookupL_cons, hk, hx, ih]

theorem lookupL_updateL_self (m : LMap) (k : Nat) (f : SatLabelE → SatLabelE) :
    lookupL (updateL m k f) k = (lookupL m k).map f := by
  simp [lookupL_updateL]

theorem lookupL_updateL_ne (m : LMap) (k : Nat) (f : SatLabelE → SatLabelE)
    (x : Nat) (h : x ≠ k) :
    lookupL (updateL m k f) x = lookupL m x := by
  simp [lookupL_updateL, h]

theorem subtreeIds_self (f : Nat) (m : LMap) (k : Nat) :
    k ∈ subtreeIds f m k := by
  cases f <;> simp [subtreeIds]

theorem MapEvolves.rfl (m : LMap) : MapEvolves m m :=
  ⟨fun _ => Eq.refl _, fun _ h => h, fun _ h => h⟩

theorem MapEvolves.trans {m1 m2 m3 : LMap}
    (h12 : MapEvolves m1 m2) (h23 : MapEvolves m2 m3) : MapEvolves m1 m3 :=
  ⟨fun x => (h23.1 x).trans (h12.1 x),
   fun x h => h23.2.1 x (h12.2.1 x h),
   fun x h => h23.2.2 x (h12.2.2 x h)⟩

theorem MapEvolves.isSome {m m2 : LMap} (h : MapEvolves m m2) (x : Nat) :
    (lookupL m2 x).isSome = (lookupL m x).isSome := by
  have hc := h.1 x
  cases h2 : lookupL m2 x <;> cases h1 : lookupL m x <;>
    simp [h1, h2] at hc ⊢

theorem MapEvolves.updateL (m : LMap) (k : Nat) (f : SatLabelE → SatLabelE)
    (hc : ∀ l, (f l).children = l.children)
    (hv : ∀ l, l.valid = false → (f l).valid = false)
    (hp : ∀ l, l.parent = none → (f l).parent = none) :
    MapEvolves m (updateL m k f) := by
  refine ⟨fun x => ?_, fun x h => ?_, fun x h => ?_⟩
  · rw [lookupL_updateL]
    by_cases hx : x = k
    · cases hm : lookupL m x <;> simp [hm, hx, hc]
    · simp [hx]
  · rw [lookupL_updateL]
    by_cases hx : x = k
    · subst hx
      cases hm : lookupL m x with
      | none => rw [hm] at h; simp at h
      | some l =>
        rw [hm] at h
        simp at h
        simp [hm, hv l h]
    · simp [hx, h]
  · rw [lookupL_updateL]
    by_cases hx : x = k
    · subst hx
      cases hm : lookupL m x with
      | none => rw [hm] at h; simp at h
      | some l =>
        rw [hm] at h
        simp at h
        simp [hm, hp l h]
    · simp [hx, h]

theorem evolves_setValidFalse (m : LMap) (k : Nat) :
    MapEvolves m (setValidFalse m k) :=
  MapEvolves.updateL m k _ (fun _ => Eq.refl _) (fun _ _ => Eq.refl _)
    (fun _ h => h)

theorem evolves_setParentNone (m : LMap) (k : Nat) :
    MapEvolves m (setParentNone m k) :=
  MapEvolves.updateL m k _ (fun _ => Eq.refl _) (fun _ h => h)
    (fun _ _ => Eq.refl _)

theorem evolves_decNumChildren (m : LMap) (k : Nat) :
    MapEvolves m (decNumChildren m k) :=
  MapEvolves.updateL m k _ (fun _ => Eq.refl _) (fun _ h => h) (fun _ h => h)

theorem evolves_foldl (step : LMap → Nat → LMap)
    (hstep : ∀ acc c, MapEvolves acc (step acc c)) :
    ∀ (cs : List Nat) (m : LMap), MapEvolves m (cs.foldl step m) := by
  intro cs
  induction cs with
  | nil => intro m; exact MapEvolves.rfl m
  | cons c cs ih =>
    intro m
    exact (hstep m c).trans (ih (step m c))

theorem evolves_deleteLabel : ∀ (f : Nat) (m : LMap) (k : Nat),
    MapEvolves m (deleteLabel f m k) := by
  intro f
  induction f with
  | zero => intro m k; exact MapEvolves.rfl m
  | succ f ih =>
    intro m k
    simp only [deleteLabel]
    have h1 : MapEvolves m (setValidFalse m k) := evolves_setValidFalse m k
    cases hpar : (lookupL (setValidFalse m k) k).bind (·.parent) with
    | none =>
      simp only [hpar]
      exact h1.trans (evolves_foldl _ (fun acc c =>
        (evolves_setParentNone acc c).trans (ih (setParentNone acc c) c)) _ _)
    | some p =>
      simp only [hpar]
      have h2 : MapEvolves (setValidFalse m k)
          (decNumChildren (setValidFalse m k) p) :=
        evolves_decNumChildren _ p
      by_cases hz :
          (lookupL (decNumChildren (setValidFalse m k) p) p).map
            (·.numChildren) = some 0
      · simp only [if_pos hz]
        exact ((h1.trans h2).trans (ih _ p)).trans
          (evolves_foldl _ (fun acc c =>
            (evolves_setParentNone acc c).trans (ih (setParentNone acc c) c))
            _ _)
      · simp only [if_neg hz]
        exact (h1.trans h2).trans
          (evolves_foldl _ (fun acc c =>
            (evolves_setParentNone acc c).trans (ih (setParentNone acc c) c))
            _ _)

theorem deleteLabel_succ (f : Nat) (m : LMap) (k : Nat) :
    deleteLabel (f+1) m k =
      (childrenOf (deleteMid f m k) k).foldl
        (fun acc c => deleteLabel f (setParentNone acc c) c)
        (deleteMid f m k) := rfl

theorem evolves_childStep (f : Nat) (acc : LMap) (c : Nat) :
    MapEvolves acc (deleteLabel f (setParentNone acc c) c) :=
  (evolves_setParentNone acc c).trans
    (evolves_deleteLabel f (setParentNone acc c) c)

theorem evolves_deleteMid_from_m1 (f : Nat) (m : LMap) (k : Nat) :
    MapEvolves (setValidFalse m k) (deleteMid f m k) := by
  unfold deleteMid
  cases hpar : (lookupL (setValidFalse m k) k).bind (·.parent) with
  | none =>
    simp only [hpar]
    exact MapEvolves.rfl _
  | some p =>
    simp only [hpar]
    by_cases hz :
        (lookupL (decNumChildren (setValidFalse m k) p) p).map
          (·.numChildren) = some 0
    · simp only [if_pos hz]
      exact (evolves_decNumChildren _ p).trans (evolves_deleteLabel f _ p)
    · simp only [if_neg hz]
      exact evolves_decNumChildren _ p

theorem evolves_deleteMid (f : Nat) (m : LMap) (k : Nat) :
    MapEvolves m (deleteMid f m k) :=
  (evolves_setValidFalse m k).trans (evolves_deleteMid_from_m1 f m k)

theorem setValidFalse_valid (m : LMap) (k : Nat)
    (h : (lookupL m k).isSome) :
    (lookupL (setValidFalse m k) k).map (·.valid) = some false := by
  cases hm : lookupL m k with
  | none => rw [hm] at h; simp at h
  | some l => simp [setValidFalse, lookupL_updateL_self, hm]

theorem deleteLabel_valid (f : Nat) (m : LMap) (k : Nat)
    (h : (lookupL m k).isSome) :
    (lookupL (deleteLabel (f+1) m k) k).map (·.valid) = some false := by
  rw [deleteLabel_succ]
  have h1 := setValidFalse_valid m k h
  have e1 : MapEvolves (setValidFalse m k) (deleteMid f m k) :=
    evolves_deleteMid_from_m1 f m k
  have e2 : MapEvolves (deleteMid f m k)
      ((childrenOf (deleteMid f m k) k).foldl
        (fun acc c => deleteLabel f (setParentNone acc c) c)
        (deleteMid f m k)) :=
    evolves_foldl _ (evolves_childStep f) _ _
  exact (e1.trans e2).2.1 k h1

theorem childrenOf_congr {m m2 : LMap}
    (h : ∀ x, (lookupL m2 x).map (·.children) =
      (lookupL m x).map (·.children)) (k : Nat) :
    childrenOf m2 k = childrenOf m k := by
  unfold childrenOf
  rw [h]

theorem subtreeIds_congr {m m2 : LMap}
    (h : ∀ x, (lookupL m2 x).map (·.children) =
      (lookupL m x).map (·.children)) :
    ∀ (f : Nat) (k : Nat), subtreeIds f m2 k = subtreeIds f m k := by
  intro f
  induction f with
  | zero => intro k; rfl
  | succ f ih =>
    intro k
    have hfun : subtreeIds f m2 = subtreeIds f m := funext ih
    simp only [subtreeIds, childrenOf_congr h, hfun]

theorem foldl_child_invalid (f : Nat)
    (IH : ∀ (m : LMap) (k y : Nat), y ∈ subtreeIds f m k →
      (lookupL m y).isSome →
      (lookupL (deleteLabel (f+1) m k) y).map (·.valid) = some false) :
    ∀ (cs : List Nat) (m0 macc : LMap) (y : Nat),
      MapEvolves m0 macc →
      (∃ c ∈ cs, y ∈ subtreeIds f m0 c) → (lookupL m0 y).isSome →
      (lookupL (cs.foldl
        (fun acc c => deleteLabel (f+1) (setParentNone acc c) c) macc)
          y).map (·.valid) = some false := by
  intro cs
  induction cs with
  | nil =>
    rintro m0 macc y he ⟨c, hc, _⟩ _
    exact absurd hc (List.not_mem_nil c)
  | cons c cs ih =>
    rintro m0 macc y he ⟨c', hc', hy⟩ hsome
    simp only [List.foldl_cons]
    rcases List.mem_cons.mp hc' with rfl | hmem
    · have he2 : MapEvolves m0 (setParentNone macc c') :=
        he.trans (evolves_setParentNone macc c')
      have hy2 : y ∈ subtreeIds f (setParentNone macc c') c' := by
        rw [subtreeIds_congr he2.1 f c']
        exact hy
      have hsome2 : (lookupL (setParentNone macc c') y).isSome := by
        rw [he2.isSome y]
        exact hsome
      have hinv := IH (setParentNone macc c') c' y hy2 hsome2
      have hrest : MapEvolves
          (deleteLabel (f+1) (setParentNone macc c') c')
          (cs.foldl (fun acc c => deleteLabel (f+1) (setParentNone acc c) c)
            (deleteLabel (f+1) (setParentNone macc c') c')) :=
        evolves_foldl _ (evolves_childStep (f+1)) cs _
      exact hrest.2.1 y hinv
    · exact ih m0 (deleteLabel (f+1) (setParentNone macc c) c) y
        (he.trans (evolves_childStep (f+1) macc c)) ⟨c', hmem, hy⟩ hsome

theorem deleteLabel_subtree_invalid : ∀ (f : Nat) (m : LMap) (k y : Nat),
    y ∈ subtreeIds f m k → (lookupL m y).isSome →
    (lookupL (deleteLabel (f+1) m k) y).map (·.valid) = some false := by
  intro f
  induction f with
  | zero =>
    intro m k y hy hsome
    simp only [subtreeIds, List.mem_singleton] at hy
    subst hy
    exact deleteLabel_valid 0 m y hsome
  | succ f ih =>
    intro m k y hy hsome
    rcases List.mem_cons.mp hy with rfl | hy2
    · exact deleteLabel_valid (f+1) m y hsome
    · rw [deleteLabel_succ]
      obtain ⟨c, hc, hyc⟩ := List.mem_flatMap.mp hy2
      have hmid : MapEvolves m (deleteMid (f+1) m k) :=
        evolves_deleteMid (f+1) m k
      rw [childrenOf_congr hmid.1 k]
      exact foldl_child_invalid f ih (childrenOf m k) m
        (deleteMid (f+1) m k) y hmid ⟨c, hc, hyc⟩ hsome

theorem deleteMid_detached (f : Nat) (m : LMap) (c : Nat)
    (h : (lookupL m c).map (·.parent) = some none ∨ lookupL m c = none) :
    deleteMid f m c = setValidFalse m c := by
  unfold deleteMid
  have hnone : (lookupL (setValidFalse m c) c).bind (·.parent) = none := by
    rcases h with h | h
    · cases hm : lookupL m c with
      | none => rw [hm] at h; simp at h
      | some l =>
        rw [hm] at h
        simp at h
        simp [setValidFalse, lookupL_updateL_self, hm, h]
    · simp [setValidFalse, lookupL_updateL_self, h]
  simp only [hnone]

theorem lookupL_setParentNone_self (m : LMap) (c : Nat) :
    (lookupL (setParentNone m c) c).map (·.parent) = some none ∨
      lookupL (setParentNone m c) c = none := by
  cases hm : lookupL m c with
  | none =>
    right
    simp [setParentNone, lookupL_updateL_self, hm]
  | some l =>
    left
    simp [setParentNone, lookupL_updateL_self, hm]

theorem foldl_child_frame (f : Nat)
    (IH : ∀ (m : LMap) (c x : Nat),
      ((lookupL m c).map (·.parent) = some none ∨ lookupL m c = none) →
      x ∉ subtreeIds f m c →
      lookupL (deleteLabel f m c) x = lookupL m x) :
    ∀ (cs : List Nat) (m0 macc : LMap) (x : Nat),
      MapEvolves m0 macc →
      (∀ c ∈ cs, x ∉ subtreeIds f m0 c) →
      lookupL (cs.foldl
        (fun acc c => deleteLabel f (setParentNone acc c) c) macc) x =
          lookupL macc x := by
  intro cs
  induction cs with
  | nil => intro m0 macc x _ _; rfl
  | cons c cs ih =>
    intro m0 macc x he hn
    simp only [List.foldl_cons]
    have hxc : x ≠ c := fun h =>
      hn c (List.mem_cons_self c cs) (h ▸ subtreeIds_self f m0 c)
    have h1 : lookupL (setParentNone macc c) x = lookupL macc x :=
      lookupL_updateL_ne macc c _ x hxc
    have he2 : MapEvolves m0 (setParentNone macc c) :=
      he.trans (evolves_setParentNone macc c)
    have hnx : x ∉ subtreeIds f (setParentNone macc c) c := by
      rw [subtreeIds_congr he2.1 f c]
      exact hn c (List.mem_cons_self c cs)
    have h2 : lookupL (deleteLabel f (setParentNone macc c) c) x =
        lookupL (setParentNone macc c) x :=
      IH (setParentNone macc c) c x (lookupL_setParentNone_self macc c) hnx
    have h3 := ih m0 (deleteLabel f (setParentNone macc c) c) x
      (he.trans (evolves_childStep f macc c))
      (fun c2 hc2 => hn c2 (List.mem_cons_of_mem c hc2))
    rw [h3, h2, h1]

theorem deleteLabel_detached_frame : ∀ (f : Nat) (m : LMap) (c x : Nat),
    ((lookupL m c).map (·.parent) = some none ∨ lookupL m c = none) →
    x ∉ subtreeIds f m c →
    lookupL (deleteLabel f m c) x = lookupL m x := by
  intro f
  induction f with
  | zero => intro m c x _ _; rfl
  | succ f ih =>
    intro m c x hdet hx
    have hxc : x ≠ c := fun h => hx (h ▸ subtreeIds_self (f+1) m c)
    rw [deleteLabel_succ, deleteMid_detached f m c hdet]
    rw [childrenOf_congr (evolves_setValidFalse m c).1 c]
    have hbase : lookupL (setValidFalse m c) x = lookupL m x :=
      lookupL_updateL_ne m c _ x hxc
    have hsub : ∀ c2 ∈ childrenOf m c, x ∉ subtreeIds f m c2 := by
      intro c2 hc2 hmem
      exact hx (List.mem_cons_of_mem c (List.mem_flatMap.mpr ⟨c2, hc2, hmem⟩))
    rw [foldl_child_frame f ih (childrenOf m c) m (setValidFalse m c) x
      (evolves_setValidFalse m c) hsub, hbase]

theorem deleteMid_parent (f : Nat) (m : LMap) (k : Nat) (l : SatLabelE)
    (hk : lookupL m k = some l) (p : Nat) (hp : l.parent = some p)
    (hpk : p ≠ k) (lp : SatLabelE) (hlp : lookupL m p = some lp) :
    deleteMid f m k =
      if lp.numChildren - 1 = 0
      then deleteLabel f (decNumChildren (setValidFalse m k) p) p
      else decNumChildren (setValidFalse m k) p := by
  unfold deleteMid
  have h1 : lookupL (setValidFalse m k) k = some { l with valid := false } := by
    simp [setValidFalse, lookupL_updateL_self, hk]
  have hpar : (lookupL (setValidFalse m k) k).bind (·.parent) = some p := by
    simp [h1, hp]
  simp only [hpar]
  have hkeep : lookupL (setValidFalse m k) p = some lp := by
    rw [setValidFalse, lookupL_updateL_ne m k _ p hpk]
    exact hlp
  have h2 : lookupL (decNumChildren (setValidFalse m k) p) p =
      some { lp with numChildren := lp.numChildren - 1 } := by
    simp [decNumChildren, lookupL_updateL_self, hkeep]
  by_cases hz : lp.numChildren - 1 = 0
  · simp [h2, hz]
  · simp [h2, hz]

theorem foldl_child_detach (f : Nat) :
    ∀ (cs : List Nat) (macc : LMap) (c : Nat), c ∈ cs →
      (lookupL macc c).isSome →
      (lookupL (cs.foldl
        (fun acc c2 => deleteLabel f (setParentNone acc c2) c2) macc)
          c).map (·.parent) = some none := by
  intro cs
  induction cs with
  | nil => intro macc c hc _; exact absurd hc (List.not_mem_nil c)
  | cons c2 cs ih =>
    intro macc c hc hsome
    simp only [List.foldl_cons]
    rcases List.mem_cons.mp hc with rfl | hmem
    · have h1 : (lookupL (setParentNone macc c) c).map (·.parent) =
          some none := by
        cases hm : lookupL macc c with
        | none => rw [hm] at hsome; simp at hsome
        | some l => simp [setParentNone, lookupL_updateL_self, hm]
      have h2 : (lookupL (deleteLabel f (setParentNone macc c) c) c).map
          (·.parent) = some none :=
        (evolves_deleteLabel f (setParentNone macc c) c).2.2 c h1
      exact (evolves_foldl _ (evolves_childStep f) cs
        (deleteLabel f (setParentNone macc c) c)).2.2 c h2
    · have hsome2 : (lookupL (deleteLabel f (setParentNone macc c2) c2)
          c).isSome := by
        rw [(evolves_childStep f macc c2).isSome c]
        exact hsome
      exact ih (deleteLabel f (setParentNone macc c2) c2) c hmem hsome2

theorem childrenOf_eq (m : LMap) (k : Nat) (l : SatLabelE)
    (hk : lookupL m k = some l) : childrenOf m k = l.children := by
  simp [childrenOf, hk]

/-- C5: `SatLabel.prototype.delete` sets `valid` to `false` on the target
label, invalidates its whole parent/child subtree (every bound id reachable
through `children` edges), sets the `parent` pointer of each of its children
to `none`, and, when the target has a parent `p`, decrements `p.numChildren`
and deletes `p` exactly when that decremented count reaches zero: if the
count reaches zero `p` is invalidated, and otherwise `p`'s entry is exactly
its old state with `numChildren` decremented (in particular `p` is not
deleted).  Fuel `f+2` stands for a sufficiently deep recursion; the
side condition `p ∉ subtreeIds (f+2) m k` rules out cyclic parent/child
structures that the source would also mishandle. -/
theorem claim5_delete_cascade (f : Nat) (m : LMap) (k : Nat) (l : SatLabelE)
    (hk : lookupL m k = some l) :
    ((lookupL (deleteLabel (f+2) m k) k).map (·.valid) = some false) ∧
    (∀ y ∈ subtreeIds (f+1) m k, (lookupL m y).isSome →
      (lookupL (deleteLabel (f+2) m k) y).map (·.valid) = some false) ∧
    (∀ c ∈ l.children, (lookupL m c).isSome →
      (lookupL (deleteLabel (f+2) m k) c).map (·.parent) = some none) ∧
    (∀ p lp, l.parent = some p → lookupL m p = some lp →
      p ∉ subtreeIds (f+2) m k →
      ((lp.numChildren - 1 = 0 →
        (lookupL (deleteLabel (f+2) m k) p).map (·.valid) = some false) ∧
       (lp.numChildren - 1 ≠ 0 →
        lookupL (deleteLabel (f+2) m k) p =
          some { lp with numChildren := lp.numChildren - 1 }))) := by
  have hsome : (lookupL m k).isSome := by simp [hk]
  refine ⟨deleteLabel_valid (f+1) m k hsome,
    fun y hy hsy => deleteLabel_subtree_invalid (f+1) m k y hy hsy,
    fun c hc hsc => ?_, fun p lp hp hlp hpn => ?_⟩
  · rw [deleteLabel_succ]
    have hcs : childrenOf (deleteMid (f+1) m k) k = l.children := by
      rw [childrenOf_congr (evolves_deleteMid (f+1) m k).1 k]
      exact childrenOf_eq m k l hk
    rw [hcs]
    have hsc2 : (lookupL (deleteMid (f+1) m k) c).isSome := by
      rw [(evolves_deleteMid (f+1) m k).isSome c]
      exact hsc
    exact foldl_child_detach (f+1) l.children (deleteMid (f+1) m k) c hc hsc2
  · have hpk : p ≠ k := fun h => hpn (h ▸ subtreeIds_self (f+2) m k)
    have hmid := deleteMid_parent (f+1) m k l hk p hp hpk lp hlp
    constructor
    · intro hz
      rw [deleteLabel_succ]
      have hval : (lookupL (deleteMid (f+1) m k) p).map (·.valid) =
          some false := by
        rw [hmid, if_pos hz]
        have hpres : (lookupL (decNumChildren (setValidFalse m k) p)
            p).isSome := by
          have hkeep : lookupL (setValidFalse m k) p = some lp := by
            rw [setValidFalse, lookupL_updateL_ne m k _ p hpk]
            exact hlp
          simp [decNumChildren, lookupL_updateL_self, hkeep]
        exact deleteLabel_valid f _ p hpres
      exact (evolves_foldl _ (evolves_childStep (f+1)) _ _).2.1 p hval
    · intro hz
      rw [deleteLabel_succ]
      have hcs : childrenOf (deleteMid (f+1) m k) k = childrenOf m k := by
        rw [childrenOf_congr (evolves_deleteMid (f+1) m k).1 k]
      rw [hcs]
      have hsubs : ∀ c ∈ childrenOf m k, p ∉ subtreeIds (f+1) m c := by
        intro c hc hmem
        exact hpn (List.mem_cons_of_mem k (List.mem_flatMap.mpr
          ⟨c, hc, hmem⟩))
      rw [foldl_child_frame (f+1) (deleteLabel_detached_frame (f+1))
        (childrenOf m k) m (deleteMid (f+1) m k) p
        (evolves_deleteMid (f+1) m k) hsubs]
      rw [hmid, if_neg hz]
      have hkeep : lookupL (setValidFalse m k) p = some lp := by
        rw [setValidFalse, lookupL_updateL_ne m k _ p hpk]
        exact hlp
      simp [decNumChildren, lookupL_updateL_self, hkeep]

/-- Witness for C5: deleting the only child of label 0 in the concrete store
satisfies every hypothesis and conclusion of the cascade theorem (in
particular the parent's count reaches zero, so the parent is deleted too). -/
theorem claim5_witness :
    lookupL c5map 1 = some c5child ∧
    (((lookupL (deleteLabel (0+2) c5map 1) 1).map (·.valid) = some false) ∧
     (∀ y ∈ subtreeIds (0+1) c5map 1, (lookupL c5map y).isSome →
       (lookupL (deleteLabel (0+2) c5map 1) y).map (·.valid) = some false) ∧
     (∀ c ∈ c5child.children, (lookupL c5map c).isSome →
       (lookupL (deleteLabel (0+2) c5map 1) c).map (·.parent) = some none) ∧
     (∀ p lp, c5child.parent = some p → lookupL c5map p = some lp →
       p ∉ subtreeIds (0+2) c5map 1 →
       ((lp.numChildren - 1 = 0 →
         (lookupL (deleteLabel (0+2) c5map 1) p).map (·.valid) = some false) ∧
        (lp.numChildren - 1 ≠ 0 →
         lookupL (deleteLabel (0+2) c5map 1) p =
           some { lp with numChildren := lp.numChildren - 1 })))) :=
  ⟨by decide, claim5_delete_cascade 0 c5map 1 c5child (by decide)⟩

theorem chainAt_shift (m : LMap) (g : SatLabelE → Option Nat)
    (cl : Option Nat) : ∀ d : Nat,
    chainAt m g (chainAdvance m g cl) d = chainAt m g cl (d+1) := by
  intro d
  induction d with
  | zero => rfl
  | succ d ih => simp only [chainAt, ih]

/-- C8 (code bug): when `previousLabelId` refers to an id absent from
`labelIdMap`, the walk of `deleteLabelById` does not stop; the comparison
`currentItem.labels[j].id === currentLabel.id` dereferences `undefined` as
soon as an earlier item has any label entry, so a `TypeError` propagates out
of the deletion instead of the walk terminating silently. -/
theorem claim8_orphaned_chain_fault :
    deleteLabelById c8sat 1 1 true = .error () := by decide

/-- C1 counterexample: deleting label 0 (whose child subtree contains
label 1) through `deleteLabelById` with `back = true` leaves the child in
the item's label list and leaves both labels' `valid` flags untouched — the
child subtree is not removed, contradicting the claim. -/
theorem claim1_counterexample :
    1 ∈ subtreeIds 1 c1sat.labelIdMap 0 ∧
    (deleteLabelById c1sat 0 0 true).toOption.map
      (fun s => ((s.items.get? 0).map (·.labels),
                 (lookupL s.labelIdMap 0).map (·.valid),
                 (lookupL s.labelIdMap 1).map (·.valid))) =
      some (some [some 1], some true, some true) := by decide

theorem entryIds_cons_some (x : Nat) (ls : List (Option Nat)) :
    entryIds (some x :: ls) = x :: entryIds ls := rfl

theorem entryIds_cons_none (ls : List (Option Nat)) :
    entryIds (none :: ls) = entryIds ls := rfl

theorem mem_entryIds {t : Nat} {ls : List (Option Nat)} :
    t ∈ entryIds ls ↔ some t ∈ ls := by
  simp [entryIds, List.mem_filterMap]

theorem spliceScan_cons_ne (t x : Nat) (rest : List (Option Nat))
    (hx : ¬x = t) :
    spliceScan t (some x :: rest) =
      (spliceScan t rest).bind (fun r => Except.ok (some x :: r.1, r.2)) := by
  conv_lhs => unfold spliceScan
  rw [if_neg hx]
  rfl

theorem spliceScan_match_nil (t x : Nat) (hx : x = t) :
    spliceScan t [some x] = .ok ([], true) := by
  conv_lhs => unfold spliceScan
  rw [if_pos hx]

theorem spliceScan_match_cons (t x : Nat) (y : Option Nat)
    (ys : List (Option Nat)) (hx : x = t) :
    spliceScan t (some x :: y :: ys) =
      (spliceScan t ys).bind (fun r => Except.ok (y :: r.1, true)) := by
  conv_lhs => unfold spliceScan
  rw [if_pos hx]
  rfl

theorem spliceScan_nomatch (t : Nat) : ∀ ls : List (Option Nat),
    (∀ e ∈ ls, e.isSome) → some t ∉ ls →
    spliceScan t ls = .ok (ls, false) := by
  intro ls
  induction ls with
  | nil => intro _ _; rfl
  | cons e rest ih =>
    intro hall hnot
    cases e with
    | none => simpa using hall none (List.mem_cons_self none rest)
    | some x =>
      have hx : ¬x = t := fun h => hnot (h ▸ List.mem_cons_self _ rest)
      rw [spliceScan_cons_ne t x rest hx,
        ih (fun e he => hall e (List.mem_cons_of_mem _ he))
          (fun h => hnot (List.mem_cons_of_mem _ h))]
      rfl

theorem spliceScan_eq (t : Nat) : ∀ ls : List (Option Nat),
    (∀ e ∈ ls, e.isSome) → (entryIds ls).Nodup →
    spliceScan t ls =
      .ok (ls.filter (fun e => e ≠ some t), decide (some t ∈ ls)) := by
  intro ls
  induction ls with
  | nil => intro _ _; rfl
  | cons e rest ih =>
    intro hall hnd
    cases e with
    | none => simpa using hall none (List.mem_cons_self none rest)
    | some x =>
      rw [entryIds_cons_some] at hnd
      have hxrest : x ∉ entryIds rest := (List.nodup_cons.mp hnd).1
      have hndrest : (entryIds rest).Nodup := (List.nodup_cons.mp hnd).2
      have hallrest : ∀ e ∈ rest, e.isSome :=
        fun e he => hall e (List.mem_cons_of_mem _ he)
      by_cases hx : x = t
      · subst hx
        have hnotrest : some x ∉ rest := fun h => hxrest (mem_entryIds.mpr h)
        cases rest with
        | nil =>
          have hmem : some x ∈ [some x] := List.mem_cons_self _ _
          rw [spliceScan_match_nil x x rfl,
            List.filter_cons_of_neg (by simp), decide_eq_true hmem]
          rfl
        | cons y ys =>
          have hyne : y ≠ some x :=
            fun h => hnotrest (h ▸ List.mem_cons_self y ys)
          have hysnot : some x ∉ ys :=
            fun h => hnotrest (List.mem_cons_of_mem _ h)
          have hscan : spliceScan x ys = .ok (ys, false) :=
            spliceScan_nomatch x ys
              (fun e he => hallrest e (List.mem_cons_of_mem _ he)) hysnot
          have hfil : (y :: ys).filter (fun e => e ≠ some x) = y :: ys := by
            rw [List.filter_eq_self]
            intro a ha
            rcases List.mem_cons.mp ha with rfl | ha2
            · simpa using hyne
            · simp only [decide_eq_true_eq]
              exact fun h => hysnot (h ▸ ha2)
          have hmem : some x ∈ some x :: y :: ys := List.mem_cons_self _ _
          rw [spliceScan_match_cons x x y ys rfl, hscan,
            List.filter_cons_of_neg (by simp), hfil, decide_eq_true hmem]
          rfl
      · have hne : (some x : Option Nat) ≠ some t := by simpa using hx
        have hdec : decide (some t ∈ some x :: rest) =
            decide (some t ∈ rest) := by
          by_cases hm : some t ∈ rest
          · rw [decide_eq_true hm, decide_eq_true (List.mem_cons_of_mem _ hm)]
          · have hm2 : some t ∉ some x :: rest := by
              intro h
              rcases List.mem_cons.mp h with h2 | h2
              · exact hne h2.symm
              · exact hm h2
            rw [decide_eq_false hm, decide_eq_false hm2]
        rw [spliceScan_cons_ne t x rest hx, ih hallrest hndrest,
          List.filter_cons_of_pos (by simp [hne]), hdec]
        rfl

theorem exceptOkBind {e a b : Type} (v : a) (f : a → Except e b) :
    (Except.ok v >>= f) = f v := rfl

theorem walkItemStep_ok (cl : Option Nat) (it : SatItemE)
    (hall : ∀ e ∈ it.labels, e.isSome) (hnd : (entryIds it.labels).Nodup)
    (hne : cl = none → it.labels = []) :
    walkItemStep cl it = .ok (procItem cl it) := by
  cases cl with
  | none =>
    have h := hne rfl
    simp [walkItemStep, procItem, h]
  | some t =>
    simp only [walkItemStep, procItem]
    rw [spliceScan_eq t it.labels hall hnd]
    by_cases hm : some t ∈ it.labels
    · by_cases hs : it.selectedLabel = some t
      · simp [exceptOkBind, hm, hs]
      · simp [exceptOkBind, hm, hs]
    · by_cases hs : it.selectedLabel = some t
      · simp [exceptOkBind, hm, hs]
      · simp [exceptOkBind, hm, hs]

theorem procItem_preserves (cl : Option Nat) (it : SatItemE)
    (h1 : ∀ e ∈ it.labels, e.isSome) (h2 : (entryIds it.labels).Nodup) :
    (∀ e ∈ (procItem cl it).labels, e.isSome) ∧
      (entryIds (procItem cl it).labels).Nodup := by
  cases cl with
  | none => exact ⟨h1, h2⟩
  | some t =>
    have hsub : (procItem (some t) it).labels =
        it.labels.filter (fun e => e ≠ some t) := by
      simp only [procItem]
      by_cases h : some t ∈ it.labels ∧ it.selectedLabel = some t <;>
        simp [h]
    rw [hsub]
    refine ⟨fun e he => h1 e (List.mem_of_mem_filter he), ?_⟩
    exact List.Nodup.sublist
      (List.Sublist.filterMap _ (List.filter_sublist it.labels)) h2

theorem procItem_absent (t : Nat) (it : SatItemE) :
    t ∉ entryIds (procItem (some t) it).labels := by
  have hsub : (procItem (some t) it).labels =
      it.labels.filter (fun e => e ≠ some t) := by
    simp only [procItem]
    by_cases h : some t ∈ it.labels ∧ it.selectedLabel = some t <;> simp [h]
  rw [hsub]
  intro hmem
  have := mem_entryIds.mp hmem
  have := (List.mem_filter.mp this).2
  simp at this

theorem backWalk_zero_eq (m : LMap) (cl : Option Nat)
    (items : List SatItemE) (it : SatItemE)
    (hget : items.get? 0 = some it) :
    backWalk m 0 cl items =
      (walkItemStep cl it).bind (fun it2 => Except.ok (items.set 0 it2)) := by
  conv_lhs => unfold backWalk
  rw [hget]
  rfl

theorem backWalk_succ_eq (m : LMap) (q : Nat) (cl : Option Nat)
    (items : List SatItemE) (it : SatItemE)
    (hget : items.get? (q+1) = some it) :
    backWalk m (q+1) cl items =
      (walkItemStep cl it).bind (fun it2 =>
        backWalk m q (chainAdvance m (·.previousLabelId) cl)
          (items.set (q+1) it2)) := by
  conv_lhs => unfold backWalk
  rw [hget]
  rfl

theorem backWalk_ok (m : LMap) : ∀ (idx : Nat) (cl : Option Nat)
    (items : List SatItemE),
    idx < items.length →
    (∀ it ∈ items, (∀ e ∈ it.labels, e.isSome) ∧
      (entryIds it.labels).Nodup) →
    (∀ d : Nat, d ≤ idx → chainAt m (·.previousLabelId) cl d = none →
      ∀ it, items.get? (idx - d) = some it → it.labels = []) →
    ∃ items2, backWalk m idx cl items = .ok items2 ∧
      items2.length = items.length ∧
      (∀ j, idx < j → items2.get? j = items.get? j) ∧
      (∀ d : Nat, d ≤ idx → ∀ it, items.get? (idx - d) = some it →
        items2.get? (idx - d) =
          some (procItem (chainAt m (·.previousLabelId) cl d) it)) ∧
      (∀ it2 ∈ items2, (∀ e ∈ it2.labels, e.isSome) ∧
        (entryIds it2.labels).Nodup) := by
  intro idx
  induction idx with
  | zero =>
    intro cl items hlen hitems hsafe
    cases hget : items.get? 0 with
    | none =>
      rw [List.get?_eq_none] at hget
      omega
    | some it0 =>
      have hmem := List.get?_mem hget
      have hws : walkItemStep cl it0 = .ok (procItem cl it0) :=
        walkItemStep_ok cl it0 (hitems it0 hmem).1 (hitems it0 hmem).2
          (fun hcl => hsafe 0 (Nat.le_refl 0) hcl it0 hget)
      refine ⟨items.set 0 (procItem cl it0), ?_, ?_, ?_, ?_, ?_⟩
      · rw [backWalk_zero_eq m cl items it0 hget, hws]
        rfl
      · exact List.length_set items 0 _
      · intro j hj
        exact List.get?_set_ne _ items (by omega)
      · intro d hd it hget2
        have hd0 : d = 0 := Nat.le_zero.mp hd
        subst hd0
        simp only [Nat.sub_zero] at hget2 ⊢
        have : it = it0 := by
          rw [hget] at hget2
          exact (Option.some.injEq _ _ ▸ hget2).symm
        subst this
        exact List.get?_set_eq_of_lt _ hlen
      · intro it2 hit2
        rcases List.mem_or_eq_of_mem_set hit2 with h | h
        · exact hitems it2 h
        · subst h
          exact procItem_preserves cl it0 (hitems it0 hmem).1
            (hitems it0 hmem).2
  | succ q ih =>
    intro cl items hlen hitems hsafe
    cases hget : items.get? (q+1) with
    | none =>
      rw [List.get?_eq_none] at hget
      omega
    | some it0 =>
      have hmem := List.get?_mem hget
      have hws : walkItemStep cl it0 = .ok (procItem cl it0) :=
        walkItemStep_ok cl it0 (hitems it0 hmem).1 (hitems it0 hmem).2
          (fun hcl => hsafe 0 (Nat.zero_le _) (by simpa [chainAt] using hcl)
            it0 (by simpa using hget))
      have hred : backWalk m (q+1) cl items =
          backWalk m q (chainAdvance m (·.previousLabelId) cl)
            (items.set (q+1) (procItem cl it0)) := by
        rw [backWalk_succ_eq m q cl items it0 hget, hws]
        rfl
      have hlen2 : q < (items.set (q+1) (procItem cl it0)).length := by
        rw [List.length_set]
        omega
      have hitems2 : ∀ it ∈ items.set (q+1) (procItem cl it0),
          (∀ e ∈ it.labels, e.isSome) ∧ (entryIds it.labels).Nodup := by
        intro it2 hit2
        rcases List.mem_or_eq_of_mem_set hit2 with h | h
        · exact hitems it2 h
        · subst h
          exact procItem_preserves cl it0 (hitems it0 hmem).1
            (hitems it0 hmem).2
      have hsafe2 : ∀ d : Nat, d ≤ q →
          chainAt m (·.previousLabelId)
            (chainAdvance m (·.previousLabelId) cl) d = none →
          ∀ it, (items.set (q+1) (procItem cl it0)).get? (q - d) = some it →
            it.labels = [] := by
        intro d hd hcl it hget2
        rw [chainAt_shift] at hcl
        rw [List.get?_set_ne _ items (by omega)] at hget2
        exact hsafe (d+1) (by omega) hcl it
          (by rw [show q + 1 - (d + 1) = q - d by omega]; exact hget2)
      obtain ⟨items3, hrun, hl3, hup3, hvis3, hpres3⟩ :=
        ih (chainAdvance m (·.previousLabelId) cl)
          (items.set (q+1) (procItem cl it0)) hlen2 hitems2 hsafe2
      refine ⟨items3, ?_, ?_, ?_, ?_, hpres3⟩
      · rw [hred, hrun]
      · rw [hl3, List.length_set]
      · intro j hj
        rw [hup3 j (by omega), List.get?_set_ne _ items (by omega)]
      · intro d hd it hget2
        cases d with
        | zero =>
          simp only [Nat.sub_zero] at hget2 ⊢
          have : it = it0 := by
            rw [hget] at hget2
            exact (Option.some.injEq _ _ ▸ hget2).symm
          subst this
          rw [hup3 (q+1) (by omega)]
          simp only [chainAt]
          exact List.get?_set_eq_of_lt _ hlen
        | succ d2 =>
          have hd2 : d2 ≤ q := by omega
          have hpos : q + 1 - (d2 + 1) = q - d2 := by omega
          rw [hpos] at hget2 ⊢
          have hget3 : (items.set (q+1) (procItem cl it0)).get? (q - d2) =
              some it := by
            rw [List.get?_set_ne _ items (by omega)]
            exact hget2
          rw [hvis3 d2 hd2 it hget3, chainAt_shift]

theorem forwardWalkAux_succ_eq (m : LMap) (fuel idx : Nat)
    (cl : Option Nat) (items : List SatItemE) (it : SatItemE)
    (hget : items.get? idx = some it) :
    forwardWalkAux m (fuel+1) idx cl items =
      (walkItemStep cl it).bind (fun it2 =>
        forwardWalkAux m fuel (idx+1) (chainAdvance m (·.nextLabelId) cl)
          (items.set idx it2)) := by
  conv_lhs => unfold forwardWalkAux
  rw [hget]
  rfl

theorem forwardWalkAux_ok (m : LMap) : ∀ (fuel idx : Nat) (cl : Option Nat)
    (items : List SatItemE),
    idx + fuel = items.length →
    (∀ it ∈ items, (∀ e ∈ it.labels, e.isSome) ∧
      (entryIds it.labels).Nodup) →
    (∀ d : Nat, d < fuel → chainAt m (·.nextLabelId) cl d = none →
      ∀ it, items.get? (idx + d) = some it → it.labels = []) →
    ∃ items2, forwardWalkAux m fuel idx cl items = .ok items2 ∧
      items2.length = items.length ∧
      (∀ j, j < idx → items2.get? j = items.get? j) ∧
      (∀ d : Nat, d < fuel → ∀ it, items.get? (idx + d) = some it →
        items2.get? (idx + d) =
          some (procItem (chainAt m (·.nextLabelId) cl d) it)) ∧
      (∀ it2 ∈ items2, (∀ e ∈ it2.labels, e.isSome) ∧
        (entryIds it2.labels).Nodup) := by
  intro fuel
  induction fuel with
  | zero =>
    intro idx cl items _ hitems _
    exact ⟨items, rfl, rfl, fun j _ => rfl,
      fun d hd => absurd hd (by omega), hitems⟩
  | succ fuel ih =>
    intro idx cl items hlen hitems hsafe
    cases hget : items.get? idx with
    | none =>
      rw [List.get?_eq_none] at hget
      omega
    | some it0 =>
      have hmem := List.get?_mem hget
      have hws : walkItemStep cl it0 = .ok (procItem cl it0) :=
        walkItemStep_ok cl it0 (hitems it0 hmem).1 (hitems it0 hmem).2
          (fun hcl => hsafe 0 (by omega) (by simpa [chainAt] using hcl)
            it0 (by simpa using hget))
      have hred : forwardWalkAux m (fuel+1) idx cl items =
          forwardWalkAux m fuel (idx+1) (chainAdvance m (·.nextLabelId) cl)
            (items.set idx (procItem cl it0)) := by
        rw [forwardWalkAux_succ_eq m fuel idx cl items it0 hget, hws]
        rfl
      have hidx : idx < items.length := by omega
      have hlen2 : (idx+1) + fuel =
          (items.set idx (procItem cl it0)).length := by
        rw [List.length_set]
        omega
      have hitems2 : ∀ it ∈ items.set idx (procItem cl it0),
          (∀ e ∈ it.labels, e.isSome) ∧ (entryIds it.labels).Nodup := by
        intro it2 hit2
        rcases List.mem_or_eq_of_mem_set hit2 with h | h
        · exact hitems it2 h
        · subst h
          exact procItem_preserves cl it0 (hitems it0 hmem).1
            (hitems it0 hmem).2
      have hsafe2 : ∀ d : Nat, d < fuel →
          chainAt m (·.nextLabelId)
            (chainAdvance m (·.nextLabelId) cl) d = none →
          ∀ it, (items.set idx (procItem cl it0)).get? ((idx+1) + d) =
            some it → it.labels = [] := by
        intro d hd hcl it hget2
        rw [chainAt_shift] at hcl
        rw [List.get?_set_ne _ items (by omega)] at hget2
        exact hsafe (d+1) (by omega) hcl it
          (by rw [show idx + (d + 1) = idx + 1 + d by omega]; exact hget2)
      obtain ⟨items3, hrun, hl3, hup3, hvis3, hpres3⟩ :=
        ih (idx+1) (chainAdvance m (·.nextLabelId) cl)
          (items.set idx (procItem cl it0)) hlen2 hitems2 hsafe2
      refine ⟨items3, ?_, ?_, ?_, ?_, hpres3⟩
      · rw [hred, hrun]
      · rw [hl3, List.length_set]
      · intro j hj
        rw [hup3 j (by omega), List.get?_set_ne _ items (by omega)]
      · intro d hd it hget2
        cases d with
        | zero =>
          simp only [Nat.add_zero] at hget2 ⊢
          have : it = it0 := by
            rw [hget] at hget2
            exact (Option.some.injEq _ _ ▸ hget2).symm
          subst this
          rw [hup3 idx (by omega)]
          simp only [chainAt]
          exact List.get?_set_eq_of_lt _ hidx
        | succ d2 =>
          have hd2 : d2 < fuel := by omega
          have hpos : idx + (d2 + 1) = (idx + 1) + d2 := by omega
          rw [hpos] at hget2 ⊢
          have hget3 : (items.set idx (procItem cl it0)).get?
              ((idx+1) + d2) = some it := by
            rw [List.get?_set_ne _ items (by omega)]
            exact hget2
          rw [hvis3 d2 hd2 it hget3, chainAt_shift]

theorem findIdS_cons_eq (t x : Nat) (rest : List (Option Nat))
    (hx : x = t) : findIdS t (some x :: rest) = .ok (some 0) := by
  conv_lhs => unfold findIdS
  rw [if_pos hx]

theorem findIdS_cons_ne (t x : Nat) (rest : List (Option Nat))
    (hx : ¬x = t) :
    findIdS t (some x :: rest) =
      (findIdS t rest).bind (fun r => Except.ok (r.map (· + 1))) := by
  conv_lhs => unfold findIdS
  rw [if_neg hx]
  rfl

theorem findIdS_found (t : Nat) : ∀ ls : List (Option Nat),
    (∀ e ∈ ls, e.isSome) → some t ∈ ls →
    ∃ i, findIdS t ls = .ok (some i) ∧ ls.get? i = some (some t) := by
  intro ls
  induction ls with
  | nil => intro _ h; exact absurd h (List.not_mem_nil _)
  | cons e rest ih =>
    intro hall hmem
    cases e with
    | none => simpa using hall none (List.mem_cons_self none rest)
    | some x =>
      by_cases hx : x = t
      · subst hx
        exact ⟨0, findIdS_cons_eq x x rest rfl, rfl⟩
      · have hmem2 : some t ∈ rest := by
          rcases List.mem_cons.mp hmem with h | h
          · exact absurd (Option.some.injEq _ _ ▸ h.symm) hx
          · exact h
        obtain ⟨i, h1, h2⟩ :=
          ih (fun e he => hall e (List.mem_cons_of_mem _ he)) hmem2
        refine ⟨i + 1, ?_, h2⟩
        rw [findIdS_cons_ne t x rest hx, h1]
        rfl

theorem not_mem_entryIds_eraseIdx : ∀ (ls : List (Option Nat)) (i t : Nat),
    ls.get? i = some (some t) → (entryIds ls).Nodup →
    t ∉ entryIds (ls.eraseIdx i) := by
  intro ls
  induction ls with
  | nil => intro i t h _; simp at h
  | cons e rest ih =>
    intro i t h hnd
    cases i with
    | zero =>
      simp only [List.get?] at h
      have he : e = some t := Option.some.injEq _ _ ▸ h
      subst he
      rw [entryIds_cons_some] at hnd
      simpa [List.eraseIdx] using (List.nodup_cons.mp hnd).1
    | succ i2 =>
      simp only [List.get?] at h
      cases e with
      | none =>
        rw [entryIds_cons_none] at hnd
        simpa [List.eraseIdx, entryIds_cons_none] using ih i2 t h hnd
      | some x =>
        rw [entryIds_cons_some] at hnd
        have hxrest : x ∉ entryIds rest := (List.nodup_cons.mp hnd).1
        have hndrest : (entryIds rest).Nodup := (List.nodup_cons.mp hnd).2
        have hxt : ¬x = t := by
          intro hxe
          subst hxe
          exact hxrest (mem_entryIds.mpr (List.get?_mem h))
        intro hmem2
        rw [show ((some x :: rest).eraseIdx (i2+1)) =
          some x :: rest.eraseIdx i2 from rfl, entryIds_cons_some] at hmem2
        rcases List.mem_cons.mp hmem2 with h2 | h2
        · exact hxt h2.symm
        · exact ih i2 t h hndrest h2

theorem deleteById_forward_finish (sat : SatE) (p labelId : Nat)
    (self : SatItemE) (items1 : List SatItemE)
    (hp : sat.items.get? p = some self)
    (hplen : p < sat.items.length)
    (hl1 : items1.length = sat.items.length)
    (hup1 : ∀ j, p ≤ j → items1.get? j = sat.items.get? j)
    (hpres1 : ∀ it ∈ items1, (∀ e ∈ it.labels, e.isSome) ∧
      (entryIds it.labels).Nodup)
    (hfsafe : ∀ d : Nat, p + 1 + d < sat.items.length →
      chainAt sat.labelIdMap (·.nextLabelId)
        (resolveRef sat.labelIdMap
          ((lookupL sat.labelIdMap labelId).bind (·.nextLabelId))) d = none →
      ∀ it, sat.items.get? (p + 1 + d) = some it → it.labels = []) :
    ∃ items2 : List SatItemE,
      forwardWalk sat.labelIdMap (p+1)
        (resolveRef sat.labelIdMap
          ((lookupL sat.labelIdMap labelId).bind (·.nextLabelId)))
        items1 = .ok items2 ∧
      items2.length = sat.items.length ∧
      (∀ j, j ≤ p → items2.get? j = items1.get? j) ∧
      (∀ d t, p + 1 + d < sat.items.length →
        chainAt sat.labelIdMap (·.nextLabelId)
          (resolveRef sat.labelIdMap
            ((lookupL sat.labelIdMap labelId).bind (·.nextLabelId))) d =
          some t →
        ∀ it2, items2.get? (p + 1 + d) = some it2 →
          t ∉ entryIds it2.labels) ∧
      items2.get? p = some self := by
  have hfuel : (p+1) + (items1.length - (p+1)) = items1.length := by omega
  have hsafe2 : ∀ d : Nat, d < items1.length - (p+1) →
      chainAt sat.labelIdMap (·.nextLabelId)
        (resolveRef sat.labelIdMap
          ((lookupL sat.labelIdMap labelId).bind (·.nextLabelId))) d = none →
      ∀ it, items1.get? ((p+1) + d) = some it → it.labels = [] := by
    intro d hd hcl it hget2
    rw [hup1 (p+1+d) (by omega)] at hget2
    exact hfsafe d (by omega) hcl it hget2
  obtain ⟨items2, hrun, hl2, hup2, hvis2, _⟩ :=
    forwardWalkAux_ok sat.labelIdMap (items1.length - (p+1)) (p+1)
      (resolveRef sat.labelIdMap
        ((lookupL sat.labelIdMap labelId).bind (·.nextLabelId)))
      items1 hfuel hpres1 hsafe2
  refine ⟨items2, ?_, ?_, ?_, ?_, ?_⟩
  · unfold forwardWalk
    exact hrun
  · rw [hl2, hl1]
  · intro j hj
    exact hup2 j (by omega)
  · intro d t hd hcl it2 hget2
    have hd2 : d < items1.length - (p+1) := by omega
    cases hget1 : items1.get? (p+1+d) with
    | none =>
      rw [List.get?_eq_none] at hget1
      omega
    | some it0 =>
      have := hvis2 d hd2 it0 hget1
      rw [hcl] at this
      rw [this] at hget2
      have : it2 = procItem (some t) it0 :=
        (Option.some.injEq _ _ ▸ hget2).symm
      subst this
      exact procItem_absent t it0
  · rw [hup2 p (by omega), hup1 p (Nat.le_refl p), hp]

/-- C1 (amended): `deleteLabelById` with `back = true` removes the resolved
`previousLabelId`-chain label from each earlier item's label list and the
resolved `nextLabelId`-chain label from each later item's label list, and
splices the deleted label out of its own item's list; but it touches only
the items' reference lists and selections — `labelIdMap`, the session label
list, `lastLabelId` and the event log are unchanged, so no label is
invalidated and the deleted label's child subtree is not removed.  The
safety hypotheses say that whenever the chain runs out before the walk does,
the remaining items have empty label lists (otherwise the source faults, see
the C8 analysis). -/
theorem claim1_amended (sat : SatE) (p labelId : Nat) (self : SatItemE)
    (hp : sat.items.get? p = some self)
    (hitems : ∀ it ∈ sat.items, (∀ e ∈ it.labels, e.isSome) ∧
      (entryIds it.labels).Nodup)
    (hmem : some labelId ∈ self.labels)
    (hbsafe : ∀ d : Nat, d + 1 ≤ p →
      chainAt sat.labelIdMap (·.previousLabelId)
        (resolveRef sat.labelIdMap
          ((lookupL sat.labelIdMap labelId).bind (·.previousLabelId))) d =
        none →
      ∀ it, sat.items.get? (p - 1 - d) = some it → it.labels = [])
    (hfsafe : ∀ d : Nat, p + 1 + d < sat.items.length →
      chainAt sat.labelIdMap (·.nextLabelId)
        (resolveRef sat.labelIdMap
          ((lookupL sat.labelIdMap labelId).bind (·.nextLabelId))) d =
        none →
      ∀ it, sat.items.get? (p + 1 + d) = some it → it.labels = []) :
    ∃ sat2, deleteLabelById sat p labelId true = .ok sat2 ∧
      sat2.labelIdMap = sat.labelIdMap ∧
      sat2.labels = sat.labels ∧
      sat2.lastLabelId = sat.lastLabelId ∧
      sat2.events = sat.events ∧
      sat2.items.length = sat.items.length ∧
      (∀ d t, d + 1 ≤ p →
        chainAt sat.labelIdMap (·.previousLabelId)
          (resolveRef sat.labelIdMap
            ((lookupL sat.labelIdMap labelId).bind (·.previousLabelId))) d =
          some t →
        ∀ it2, sat2.items.get? (p - 1 - d) = some it2 →
          t ∉ entryIds it2.labels) ∧
      (∀ d t, p + 1 + d < sat.items.length →
        chainAt sat.labelIdMap (·.nextLabelId)
          (resolveRef sat.labelIdMap
            ((lookupL sat.labelIdMap labelId).bind (·.nextLabelId))) d =
          some t →
        ∀ it2, sat2.items.get? (p + 1 + d) = some it2 →
          t ∉ entryIds it2.labels) ∧
      (∀ it2, sat2.items.get? p = some it2 →
        labelId ∉ entryIds it2.labels) := by
  have hself := hitems self (List.get?_mem hp)
  have hplen : p < sat.items.length := by
    by_contra hc
    have h0 : sat.items.get? p = none :=
      List.get?_eq_none.mpr (Nat.le_of_not_lt hc)
    rw [hp] at h0
    exact Option.noConfusion h0
  obtain ⟨i, hfind, hgeti⟩ := findIdS_found labelId self.labels hself.1 hmem
  cases p with
  | zero =>
    obtain ⟨items2, hfwd, hl2, hup2, habs2, hget2p⟩ :=
      deleteById_forward_finish sat 0 labelId self sat.items hp hplen rfl
        (fun j _ => rfl) hitems hfsafe
    refine ⟨{ sat with items := items2.set 0 (spliceSelf self labelId i) },
      ?_, rfl, rfl, rfl, rfl, ?_, ?_, ?_, ?_⟩
    · simp only [deleteLabelById, hp, hfind, exceptOkBind]
      rw [hfwd]
      simp only [exceptOkBind, hget2p, spliceSelf]
      simp
    · simp [List.length_set, hl2]
    · intro d t hd
      exact absurd hd (by omega)
    · intro d t hd hcl it2 hget2
      rw [List.get?_set_ne _ items2 (by omega)] at hget2
      exact habs2 d t hd hcl it2 hget2
    · intro it2 hget2
      rw [List.get?_set_eq_of_lt _ (by rw [hl2]; exact hplen)] at hget2
      have hit2 := (Option.some.injEq _ _ ▸ hget2).symm
      subst hit2
      by_cases hsel : self.selectedLabel = some labelId
      · simp only [spliceSelf, if_pos hsel]
        exact not_mem_entryIds_eraseIdx self.labels i labelId hgeti hself.2
      · simp only [spliceSelf, if_neg hsel]
        exact not_mem_entryIds_eraseIdx self.labels i labelId hgeti hself.2
  | succ q =>
    have hbsafe2 : ∀ d : Nat, d ≤ q →
        chainAt sat.labelIdMap (·.previousLabelId)
          (resolveRef sat.labelIdMap
            ((lookupL sat.labelIdMap labelId).bind (·.previousLabelId)))
          d = none →
        ∀ it, sat.items.get? (q - d) = some it → it.labels = [] := by
      intro d hd hcl it hget2
      exact hbsafe d (by omega) hcl it
        (by rw [show q + 1 - 1 - d = q - d by omega]; exact hget2)
    obtain ⟨items1, hbrun, hbl, hbup, hbvis, hbpres⟩ :=
      backWalk_ok sat.labelIdMap q
        (resolveRef sat.labelIdMap
          ((lookupL sat.labelIdMap labelId).bind (·.previousLabelId)))
        sat.items (by omega) hitems hbsafe2
    obtain ⟨items2, hfwd, hl2, hup2, habs2, hget2p⟩ :=
      deleteById_forward_finish sat (q+1) labelId self items1 hp hplen hbl
        (fun j hj => hbup j (by omega)) hbpres hfsafe
    refine ⟨{ sat with
        items := items2.set (q+1) (spliceSelf self labelId i) },
      ?_, rfl, rfl, rfl, rfl, ?_, ?_, ?_, ?_⟩
    · simp only [deleteLabelById, hp, hfind, exceptOkBind]
      rw [hbrun]
      simp only [exceptOkBind]
      rw [hfwd]
      simp only [exceptOkBind, hget2p, spliceSelf]
      simp
    · simp [List.length_set, hl2]
    · intro d t hd hcl it2 hget2
      rw [show q + 1 - 1 - d = q - d by omega] at hget2
      rw [List.get?_set_ne _ items2 (by omega)] at hget2
      rw [hup2 (q - d) (by omega)] at hget2
      cases hget0 : sat.items.get? (q - d) with
      | none =>
        rw [List.get?_eq_none] at hget0
        omega
      | some it0 =>
        have hv := hbvis d (by omega) it0 hget0
        rw [hcl] at hv
        rw [hv] at hget2
        have : it2 = procItem (some t) it0 :=
          (Option.some.injEq _ _ ▸ hget2).symm
        subst this
        exact procItem_absent t it0
    · intro d t hd hcl it2 hget2
      rw [List.get?_set_ne _ items2 (by omega)] at hget2
      exact habs2 d t hd hcl it2 hget2
    · intro it2 hget2
      rw [List.get?_set_eq_of_lt _ (by rw [hl2]; exact hplen)] at hget2
      have hit2 := (Option.some.injEq _ _ ▸ hget2).symm
      subst hit2
      by_cases hsel : self.selectedLabel = some labelId
      · simp only [spliceSelf, if_pos hsel]
        exact not_mem_entryIds_eraseIdx self.labels i labelId hgeti hself.2
      · simp only [spliceSelf, if_neg hsel]
        exact not_mem_entryIds_eraseIdx self.labels i labelId hgeti hself.2

/-- Witness for the amended C1: deleting the middle label of the concrete
three-item chain satisfies all hypotheses, succeeds, and leaves the arena
untouched while the chains are removed from the item lists. -/
theorem claim1_amended_witness :
    c1wsat.items.get? 1 = some c1witem ∧
    some 1 ∈ c1witem.labels ∧
    (∃ sat2, deleteLabelById c1wsat 1 1 true = .ok sat2 ∧
      sat2.labelIdMap = c1wsat.labelIdMap ∧ sat2.labels = c1wsat.labels) := by
  refine ⟨by decide, by decide, ?_⟩
  obtain ⟨sat2, h1, h2, h3, _⟩ :=
    claim1_amended c1wsat 1 1 c1witem (by decide) (by decide) (by decide)
      (by
        intro d hd hcl it hget
        have hd0 : d = 0 := by omega
        subst hd0
        exact absurd hcl (by decide))
      (by
        intro d hd hcl it hget
        have hd0 : d = 0 := by
          have := c1wsat.items.length
          simp [c1wsat] at hd
          omega
        subst hd0
        exact absurd hcl (by decide))
  exact ⟨sat2, h1, h2, h3⟩

/-- C6 (code bug): with 3 items, `gotoItem(-1)` does not behave as
`gotoItem(2)`.  JavaScript `%` gives `-1 % 3 = -1`, `items[-1]` is
`undefined`, and `setActive` on it throws, while `gotoItem(2)` correctly
activates item 2 — even though the source's own comment says the index is
taken "mod ... to wrap around the list". -/
theorem claim6_goto_item_bug :
    gotoItem c6sat (-1) = .error () ∧
    (gotoItem c6sat 2).toOption.map
      (fun s => (s.currentItem, (s.items.get? 2).map (·.active))) =
      some (some 2, some true) ∧
    gotoItem c6sat (-1) ≠ gotoItem c6sat 2 := by decide

/-- C3 counterexample: label 0 is historically attached to the item (it is
in the item's label list) but invalid, and `toJson` omits it from
`labelIds` — the encoding does not list every historically attached label. -/
theorem claim3_counterexample :
    c3item.labels = [some 0] ∧
    (itemToJson c3map c3item).map (fun j => j.labelIds) = Except.ok [] := by
  decide

/-- C3 (amended): on an item all of whose entries resolve to live label
objects, `toJson` succeeds and `labelIds` lists exactly the ids of the
currently `valid` labels among the entries, in order; invalid labels are
filtered out (on a dangling entry the loop instead throws).  `hsome` states
that every entry resolves; `hid` states the source invariant
`labelIdMap[l.id] === l` for the referenced ids. -/
theorem claim3_amended (m : LMap) (it : SatItemE)
    (hsome : ∀ e ∈ it.labels, (e.bind (lookupL m)).isSome)
    (hid : ∀ t ∈ entryIds it.labels, ∀ l, lookupL m t = some l → l.id = t) :
    itemToJson m it =
      Except.ok
        { url := it.url
          index := it.index
          labelIds := (entryIds it.labels).filter
            (fun t => ((lookupL m t).map (·.valid)).getD false) } := by
  have hgen : ∀ ls : List (Option Nat),
      (∀ e ∈ ls, (e.bind (lookupL m)).isSome) →
      (∀ t ∈ entryIds ls, ∀ l, lookupL m t = some l → l.id = t) →
      itemLabelIdsJson m ls =
        Except.ok ((entryIds ls).filter
          (fun t => ((lookupL m t).map (·.valid)).getD false)) := by
    intro ls
    induction ls with
    | nil => intro _ _; rfl
    | cons e rest ih =>
      intro hs2 hid2
      have hrest2 : ∀ e2 ∈ rest, (e2.bind (lookupL m)).isSome :=
        fun e2 he2 => hs2 e2 (List.mem_cons_of_mem _ he2)
      cases e with
      | none =>
        have := hs2 none (List.mem_cons_self _ _)
        simp [Option.bind] at this
      | some t =>
        rw [entryIds_cons_some] at hid2 ⊢
        have hrest : ∀ t2 ∈ entryIds rest, ∀ l, lookupL m t2 = some l →
            l.id = t2 :=
          fun t2 ht2 => hid2 t2 (List.mem_cons_of_mem _ ht2)
        have hsome_t := hs2 (some t) (List.mem_cons_self _ _)
        simp only [itemLabelIdsJson, Option.bind]
        cases hm : lookupL m t with
        | none => rw [Option.some_bind, hm] at hsome_t; simp at hsome_t
        | some l =>
          have hlid : l.id = t := hid2 t (List.mem_cons_self _ _) l hm
          rw [ih hrest2 hrest]
          by_cases hv : l.valid
          · simp [List.filter_cons, hm, hv, hlid]
          · simp [List.filter_cons, hm, hv]
  show (itemLabelIdsJson m it.labels).map _ = _
  rw [hgen it.labels hsome hid]
  rfl

/-- Witness for the amended C3: one valid and one invalid label on an item;
`toJson` succeeds and only the valid id is emitted. -/
theorem claim3_witness :
    (∀ e ∈ c3witem.labels, (e.bind (lookupL c3wmap)).isSome) ∧
    (∀ t ∈ entryIds c3witem.labels, ∀ l, lookupL c3wmap t = some l →
      l.id = t) ∧
    itemToJson c3wmap c3witem =
      Except.ok
        { url := c3witem.url
          index := c3witem.index
          labelIds := (entryIds c3witem.labels).filter
            (fun t => ((lookupL c3wmap t).map (·.valid)).getD false) } :=
  ⟨by decide, by decide, claim3_amended c3wmap c3witem (by decide) (by decide)⟩

/-- C4 counterexample: restoring an item whose `labelIds` holds the unbound
id 99 does not drop the entry — it pushes a dangling `undefined` entry into
the item's label list, so the missing id does contribute an entry. -/
theorem claim4_counterexample :
    (itemFromJson [] (newItemE 0 "")
      { url := "u", index := 0, labelIds := [99] }).labels = [none] ∧
    ([none] : List (Option Nat)) ≠ [] := by decide

theorem fromJsonLabelRefs_get (m : LMap) : ∀ (ids : List Nat) (i : Nat),
    (fromJsonLabelRefs m ids).get? i =
      (ids.get? i).map
        (fun id => if (lookupL m id).isSome then some id else none) := by
  intro ids
  induction ids with
  | nil => intro i; cases i <;> rfl
  | cons id rest ih =>
    intro i
    cases i with
    | zero => rfl
    | succ i2 => exact ih i2

theorem fromJsonLabelRefs_length (m : LMap) : ∀ ids : List Nat,
    (fromJsonLabelRefs m ids).length = ids.length := by
  intro ids
  induction ids with
  | nil => rfl
  | cons id rest ih => simp [fromJsonLabelRefs, ih]

/-- C4 (amended): `fromJson` never fails on a missing id — the load always
continues — but a missing id is not dropped: every listed id contributes
exactly one entry at its position, a bound id contributing the label
reference and an unbound id contributing a dangling `undefined` entry. -/
theorem claim4_amended (m : LMap) (it : SatItemE) (ij : ItemJson) :
    (itemFromJson m it ij).labels.length =
      it.labels.length + ij.labelIds.length ∧
    (∀ i : Nat, (itemFromJson m it ij).labels.get? (it.labels.length + i) =
      (ij.labelIds.get? i).map
        (fun id => if (lookupL m id).isSome then some id else none)) := by
  constructor
  · simp [itemFromJson, fromJsonLabelRefs_length]
  · intro i
    show (it.labels ++ fromJsonLabelRefs m ij.labelIds).get?
      (it.labels.length + i) = _
    rw [List.get?_append_right (by omega)]
    rw [show it.labels.length + i - it.labels.length = i by omega]
    exact fromJsonLabelRefs_get m ij.labelIds i

/-- C9: hit-testing decodes the sampled pixel exactly: alpha `0` yields
`(none, none)`; a non-zero alpha yields the label at position `r*256 + g`
of the item's label list together with handle `b - 1`; and decoding is the
exact inverse of the `encodeId` packing for every in-range slot and
handle. -/
theorem claim9_hit_test (labels : List (Option Nat)) :
    (∀ p : Nat × Nat × Nat × Nat, p.2.2.2 = 0 →
      getSelected labels p = (none, none)) ∧
    (∀ p : Nat × Nat × Nat × Nat, p.2.2.2 ≠ 0 →
      getSelected labels p =
        ((labels.get? (p.1 * 256 + p.2.1)).join,
         some ((p.2.2.1 : Int) - 1))) ∧
    (∀ slot handle : Nat, slot < 65536 → handle + 1 ≤ 255 →
      getSelected labels (encodeId slot handle) =
        ((labels.get? slot).join, some (handle : Int))) := by
  refine ⟨fun p hp => ?_, fun p hp => ?_, fun slot handle _ _ => ?_⟩
  · simp [getSelected, hp]
  · simp [getSelected, hp]
  · have h255 : (255 : Nat) ≠ 0 := by decide
    simp only [getSelected, encodeId, h255]
    rw [if_pos h255]
    have hslot : slot / 256 * 256 + slot % 256 = slot := by
      omega
    rw [hslot]
    have hh : ((handle + 1 : Nat) : Int) - 1 = (handle : Int) := by
      push_cast
      ring
    rw [hh]

/-- Witness for C9: a concrete one-label list and an in-range slot/handle
pair round-trip through the encoding. -/
theorem claim9_witness :
    (0 : Nat) < 65536 ∧ (4 : Nat) + 1 ≤ 255 ∧
    getSelected [some 7] (encodeId 0 4) =
      (([some 7].get? 0).join, some (4 : Int)) :=
  ⟨by decide, by decide,
    (claim9_hit_test [some 7]).2.2 0 4 (by decide) (by decide)⟩

theorem encodeItemsS_state (ls : List SatItemE) : ∀ s : SatE,
    (encodeItemsS s ls).2 = s := by
  induction ls with
  | nil => intro s; rfl
  | cons it rest ih =>
    intro s
    simp only [encodeItemsS, encodeItemS]
    cases itemToJson s.labelIdMap it with
    | error er => rfl
    | ok j => exact ih s

theorem encodeLabelsS_state (ls : List Nat) : ∀ s : SatE,
    (encodeLabelsS s ls).2 = s := by
  induction ls with
  | nil => intro s; rfl
  | cons id rest ih =>
    intro s
    simp only [encodeLabelsS]
    cases lookupL s.labelIdMap id with
    | none => exact ih s
    | some l =>
      by_cases hv : l.valid
      · simp only [if_pos hv, encodeLabelS]
        exact ih s
      · simp only [if_neg hv]
        exact ih s

/-- C10: serialization is read-only.  In the state-threaded embedding,
`Sat.encodeBaseJson` — including every `SatItem.toJson` and
`SatLabel.encodeBaseJson` call it makes — returns the session exactly as it
received it: items, labels, labelIdMap, lastLabelId, events and every other
field are unchanged (the source functions contain no writes). -/
theorem claim10_encode_frame (sat : SatE) (ua : String) :
    (encodeBaseJsonS sat ua).2 = sat ∧
    (∀ it, (encodeItemS sat it).2 = sat) ∧
    (∀ l, (encodeLabelS sat l).2 = sat) := by
  refine ⟨?_, fun it => rfl, fun l => rfl⟩
  simp only [encodeBaseJsonS]
  cases (encodeItemsS sat sat.items).1 with
  | error er => exact encodeItemsS_state sat.items sat
  | ok itemsJ =>
    rw [encodeItemsS_state sat.items sat]
    exact encodeLabelsS_state sat.labels sat

theorem addChild_foldl (cids : List Nat) : ∀ l : SatLabelE,
    cids.foldl (fun l2 cid =>
      { l2 with
        children := l2.children ++ [cid],
        numChildren := l2.numChildren + 1 }) l =
      { l with
        children := l.children ++ cids,
        numChildren := l.numChildren + cids.length } := by
  induction cids with
  | nil => intro l; simp
  | cons c cs ih =>
    intro l
    rw [List.foldl_cons, ih]
    simp [List.append_assoc]
    push_cast
    ring

theorem decodePass1_untouched : ∀ (ljs : List LabelJson) (sat : SatE)
    (k : Nat), k ∉ ljs.map (·.id) →
    lookupL (decodePass1 sat ljs).labelIdMap k = lookupL sat.labelIdMap k := by
  intro ljs
  induction ljs with
  | nil => intro sat k _; rfl
  | cons lj rest ih =>
    intro sat k hk
    rw [List.map_cons] at hk
    have h1 : k ∉ rest.map (·.id) := fun h => hk (List.mem_cons_of_mem _ h)
    have h2 : lj.id ≠ k := fun h => hk (h ▸ List.mem_cons_self _ _)
    show lookupL (decodePass1 (decodePass1Step sat lj) rest).labelIdMap k = _
    rw [ih (decodePass1Step sat lj) k h1]
    exact lookupL_cons_ne _ _ k h2

theorem decodePass1_lookup : ∀ (ljs : List LabelJson) (sat : SatE)
    (lj : LabelJson), lj ∈ ljs → (ljs.map (·.id)).Nodup →
    lookupL (decodePass1 sat ljs).labelIdMap lj.id =
      some (decodeLabelVars lj) := by
  intro ljs
  induction ljs with
  | nil => intro sat lj h _; exact absurd h (List.not_mem_nil _)
  | cons lj0 rest ih =>
    intro sat lj hmem hnd
    rw [List.map_cons] at hnd
    rcases List.mem_cons.mp hmem with rfl | hmem2
    · show lookupL (decodePass1 (decodePass1Step sat lj) rest).labelIdMap
        lj.id = _
      rw [decodePass1_untouched rest (decodePass1Step sat lj) lj.id
        (List.nodup_cons.mp hnd).1]
      exact lookupL_cons_self _ _ _
    · exact ih (decodePass1Step sat lj0) lj hmem2 (List.nodup_cons.mp hnd).2

theorem decodeItems_map : ∀ (ijs : List ItemJson) (sat : SatE),
    (decodeItems sat ijs).labelIdMap = sat.labelIdMap := by
  intro ijs
  induction ijs with
  | nil => intro sat; rfl
  | cons ij rest ih => intro sat; exact ih (decodeItemStep sat ij)

theorem decodeItems_length : ∀ (ijs : List ItemJson) (sat : SatE),
    (decodeItems sat ijs).items.length = sat.items.length + ijs.length := by
  intro ijs
  induction ijs with
  | nil => intro sat; rfl
  | cons ij rest ih =>
    intro sat
    show (decodeItems (decodeItemStep sat ij) rest).items.length = _
    rw [ih]
    simp [decodeItemStep]
    omega

theorem decodePass2Step_self (sat : SatE) (lj : LabelJson) (l : SatLabelE)
    (h : lookupL sat.labelIdMap lj.id = some l) :
    lookupL (decodePass2Step sat lj).labelIdMap lj.id =
      some (pass2Result ((lookupL sat.labelIdMap lj.parent.toNat).isSome)
        lj l) := by
  show lookupL (updateL sat.labelIdMap lj.id _) lj.id = _
  rw [lookupL_updateL_self, h]
  simp only [Option.map_some']
  rw [addChild_foldl]
  rfl

theorem decodePass2_untouched : ∀ (ljs : List LabelJson) (sat : SatE)
    (x : Nat), x ∉ ljs.map (·.id) →
    lookupL (ljs.foldl decodePass2Step sat).labelIdMap x =
      lookupL sat.labelIdMap x := by
  intro ljs
  induction ljs with
  | nil => intro sat x _; rfl
  | cons lj rest ih =>
    intro sat x hx
    rw [List.map_cons] at hx
    rw [List.foldl_cons, ih (decodePass2Step sat lj) x
      (fun h => hx (List.mem_cons_of_mem _ h))]
    show lookupL (updateL sat.labelIdMap lj.id _) x = _
    exact lookupL_updateL_ne _ _ _ x
      (fun h => hx (h ▸ List.mem_cons_self _ _))

theorem decodePass2Step_isSome (sat : SatE) (lj : LabelJson) (x : Nat) :
    (lookupL (decodePass2Step sat lj).labelIdMap x).isSome =
      (lookupL sat.labelIdMap x).isSome := by
  show (lookupL (updateL sat.labelIdMap lj.id _) x).isSome = _
  rw [lookupL_updateL]
  by_cases hx : x = lj.id
  · rw [if_pos hx]
    cases lookupL sat.labelIdMap x <;> rfl
  · rw [if_neg hx]

theorem decodePass2_lookup : ∀ (ljs : List LabelJson) (sat : SatE)
    (lj : LabelJson) (l : SatLabelE), lj ∈ ljs →
    (ljs.map (·.id)).Nodup →
    lookupL sat.labelIdMap lj.id = some l →
    lookupL (ljs.foldl decodePass2Step sat).labelIdMap lj.id =
      some (pass2Result ((lookupL sat.labelIdMap lj.parent.toNat).isSome)
        lj l) := by
  intro ljs
  induction ljs with
  | nil => intro sat lj l h _ _; exact absurd h (List.not_mem_nil _)
  | cons lj0 rest ih =>
    intro sat lj l hmem hnd hl
    rw [List.map_cons] at hnd
    rcases List.mem_cons.mp hmem with rfl | hmem2
    · rw [List.foldl_cons,
        decodePass2_untouched rest (decodePass2Step sat lj) lj.id
          (List.nodup_cons.mp hnd).1]
      exact decodePass2Step_self sat lj l hl
    · have hne : lj.id ≠ lj0.id := by
        intro he
        exact (List.nodup_cons.mp hnd).1
          (he ▸ List.mem_map.mpr ⟨lj, hmem2, rfl⟩)
      have hl2 : lookupL (decodePass2Step sat lj0).labelIdMap lj.id =
          some l := by
        show lookupL (updateL sat.labelIdMap lj0.id _) lj.id = _
        rw [lookupL_updateL_ne _ _ _ _ hne]
        exact hl
      have hres := ih (decodePass2Step sat lj0) lj l hmem2
        (List.nodup_cons.mp hnd).2 hl2
      rw [List.foldl_cons, hres,
        decodePass2Step_isSome sat lj0 lj.parent.toNat]

/-- C2: two-phase decoding.  For any wire document with pairwise-distinct
label ids, a non-empty item array, and parent references pointing at ids
that occur somewhere in the label array, `decodeBaseJson` succeeds and, once
decoding completes, every label's scalar fields (`categoryPath`,
`previousLabelId`, `nextLabelId`, `keyframe`) and resolved pointer fields
(`parent`, `children`, `numChildren`) are correct — independently of the
order of the labels array, so a pointer to a higher id appearing later in
the array is resolved exactly like any other. -/
theorem claim2_two_phase (sat0 : SatE) (json : SatJson)
    (hnd : (json.labels.map (·.id)).Nodup)
    (hne : json.items ≠ [])
    (hrefs : ∀ lj ∈ json.labels, lj.parent > -1 →
      lj.parent.toNat ∈ json.labels.map (·.id)) :
    ∃ sat2, decodeBaseJsonModel sat0 json = .ok sat2 ∧
      ∀ lj ∈ json.labels,
        lookupL sat2.labelIdMap lj.id =
          some { decodeLabelVars lj with
                 parent :=
                   if lj.parent > -1 then some lj.parent.toNat else none,
                 children := lj.children,
                 numChildren := (lj.children.length : Int) } := by
  have hlen2 : 0 <
      (decodeItems (decodePass1 sat0 json.labels) json.items).items.length := by
    rw [decodeItems_length]
    have : json.items.length ≠ 0 := fun h => hne (List.length_eq_zero.mp h)
    omega
  cases hget0 : (decodeItems (decodePass1 sat0 json.labels)
      json.items).items.get? 0 with
  | none =>
    rw [List.get?_eq_none] at hget0
    omega
  | some it0 =>
    refine ⟨decodeOkState sat0 json it0, ?_, ?_⟩
    · simp only [decodeBaseJsonModel, decodeOkState]
      rw [hget0]
    · intro lj hmem
      have hl1 : lookupL (decodePass1 sat0 json.labels).labelIdMap lj.id =
          some (decodeLabelVars lj) :=
        decodePass1_lookup json.labels sat0 lj hmem hnd
      have hmap2 : (decodeItems (decodePass1 sat0 json.labels)
          json.items).labelIdMap = (decodePass1 sat0 json.labels).labelIdMap :=
        decodeItems_map json.items _
      have hl3 : lookupL (decodeItems (decodePass1 sat0 json.labels)
          json.items).labelIdMap lj.id = some (decodeLabelVars lj) := by
        rw [hmap2]
        exact hl1
      have hres := decodePass2_lookup json.labels
        { decodeItems (decodePass1 sat0 json.labels) json.items with
          currentItem := some 0,
          items := (decodeItems (decodePass1 sat0 json.labels)
            json.items).items.set 0 { it0 with active := true },
          categories := json.categories }
        lj (decodeLabelVars lj) hmem hnd hl3
      show lookupL (json.labels.foldl decodePass2Step _).labelIdMap lj.id = _
      rw [hres]
      by_cases hpar : lj.parent > -1
      · have hpres : (lookupL (decodeItems (decodePass1 sat0 json.labels)
            json.items).labelIdMap lj.parent.toNat).isSome = true := by
          rw [hmap2]
          obtain ⟨lj2, hlj2, hid2⟩ :=
            List.mem_map.mp (hrefs lj hmem hpar)
          rw [← hid2, decodePass1_lookup json.labels sat0 lj2 hlj2 hnd]
          rfl
        rw [show lookupL
          ({ decodeItems (decodePass1 sat0 json.labels) json.items with
             currentItem := some 0,
             items := (decodeItems (decodePass1 sat0 json.labels)
               json.items).items.set 0 { it0 with active := true },
             categories := json.categories  : SatE}).labelIdMap
          lj.parent.toNat = lookupL (decodeItems (decodePass1 sat0
            json.labels) json.items).labelIdMap lj.parent.toNat from rfl,
          hpres]
        simp [pass2Result, hpar, decodeLabelVars, mkLabelE]
      · simp [pass2Result, hpar, decodeLabelVars, mkLabelE]

/-- Witness for C2: decoding the forward-reference document succeeds and
resolves both labels' fields. -/
theorem claim2_witness :
    ((c2json.labels.map (·.id)).Nodup ∧ c2json.items ≠ [] ∧
      (∀ lj ∈ c2json.labels, lj.parent > -1 →
        lj.parent.toNat ∈ c2json.labels.map (·.id))) ∧
    (∃ sat2, decodeBaseJsonModel freshSat c2json = .ok sat2 ∧
      ∀ lj ∈ c2json.labels,
        lookupL sat2.labelIdMap lj.id =
          some { decodeLabelVars lj with
                 parent :=
                   if lj.parent > -1 then some lj.parent.toNat else none,
                 children := lj.children,
                 numChildren := (lj.children.length : Int) }) :=
  ⟨⟨by decide, by decide, by decide⟩,
   claim2_two_phase freshSat c2json (by decide) (by decide) (by decide)⟩

/-- C7 counterexample: finalizing the degenerate resize does not make the
label absent from `labels` — after pointer-up the session's label list (and
the item's entry list) still contain label 0; the label is merely
invalidated (`valid = false`), and `lastLabelId` is indeed unchanged. -/
theorem claim7_counterexample :
    (mouseupModel 1 4 c7sat 0).toOption.map
      (fun s => (s.labels, s.lastLabelId,
                 (lookupL s.labelIdMap 0).map (·.valid),
                 (s.items.get? 0).map (·.labels))) =
      some ([0], 0, some false, some [some 0]) := by rfl

theorem exceptBindOk {e a b : Type} (v : a) (f : a → Except e b) :
    (Except.ok v : Except e a).bind f = f v := rfl

/-- C7 (amended): finalizing a resize whose normalized box `isSmall()`
succeeds silently (no fault), runs `delete()` on the label — which sets its
`valid` flag to `false` but leaves it present in the session's `labels`
list and in the item's reference list — clears the selection, returns the
state machine to `free`, and leaves `lastLabelId` (and the event log)
unchanged, so ids are not reused. -/
theorem claim7_amended (f : Nat) (minSize : Int) (sat : SatE) (p : Nat)
    (it : SatItemE) (s : Nat) (l : SatLabelE)
    (hp : sat.items.get? p = some it)
    (hstate : it.state = "resize")
    (hsel : it.selectedLabel = some s)
    (hl : lookupL sat.labelIdMap s = some l)
    (hsmall : isSmall minSize (normalizeLabel l) = true) :
    ∃ sat2, mouseupModel (f+1) minSize sat p = .ok sat2 ∧
      sat2.labels = sat.labels ∧
      sat2.lastLabelId = sat.lastLabelId ∧
      sat2.events = sat.events ∧
      (lookupL sat2.labelIdMap s).map (·.valid) = some false ∧
      (∀ it2, sat2.items.get? p = some it2 →
        it2.selectedLabel = none ∧ it2.state = "free" ∧
        it2.labels = it.labels) := by
  have hplen : p < sat.items.length := by
    by_contra hc
    have h0 : sat.items.get? p = none :=
      List.get?_eq_none.mpr (Nat.le_of_not_lt hc)
    rw [hp] at h0
    exact Option.noConfusion h0
  refine ⟨{ sat with
      labelIdMap := deleteLabel (f+1)
        (updateL sat.labelIdMap s (fun _ => normalizeLabel l)) s,
      items := sat.items.set p
        { it with
          selectedLabel := none,
          state := "free",
          resizeID := none,
          movePos := none,
          moveClickPos := none } },
    ?_, rfl, rfl, rfl, ?_, ?_⟩
  · have hp2 : sat.items[p]? = some it := by
      rw [← List.get?_eq_getElem?]
      exact hp
    simp [mouseupModel, hp2, hstate, hsel, hl, hsmall, exceptOkBind,
      exceptBindOk]
  · have hpres : (lookupL
        (updateL sat.labelIdMap s (fun _ => normalizeLabel l)) s).isSome := by
      rw [lookupL_updateL_self, hl]
      rfl
    exact deleteLabel_valid f _ s hpres
  · intro it2 hget2
    rw [List.get?_set_eq_of_lt _ hplen] at hget2
    have : it2 = { it with
        selectedLabel := none, state := "free", resizeID := none,
        movePos := none, moveClickPos := none } :=
      (Option.some.injEq _ _ ▸ hget2).symm
    subst this
    exact ⟨rfl, rfl, rfl⟩

/-- Witness for the amended C7: the concrete degenerate resize discharges
every hypothesis and the finalization invalidates label 0 while keeping it
listed and keeping `lastLabelId`. -/
theorem claim7_amended_witness :
    (c7sat.items.get? 0 = some c7item ∧
     c7item.state = "resize" ∧
     c7item.selectedLabel = some 0 ∧
     lookupL c7sat.labelIdMap 0 = some (mkLabelE 0) ∧
     isSmall 4 (normalizeLabel (mkLabelE 0)) = true) ∧
    (∃ sat2, mouseupModel (0+1) 4 c7sat 0 = .ok sat2 ∧
      sat2.labels = c7sat.labels ∧
      sat2.lastLabelId = c7sat.lastLabelId ∧
      sat2.events = c7sat.events ∧
      (lookupL sat2.labelIdMap 0).map (·.valid) = some false ∧
      (∀ it2, sat2.items.get? 0 = some it2 →
        it2.selectedLabel = none ∧ it2.state = "free" ∧
        it2.labels = c7item.labels)) :=
  ⟨⟨by decide, by decide, by decide, by decide, by decide⟩,
   claim7_amended 0 4 c7sat 0 c7item 0 (mkLabelE 0) (by decide) (by decide)
     (by decide) (by decide) (by decide)⟩
